import Mathlib

/-!
Shallow embedding of the content hierarchy mutation engine of
adapt-authoring-content (src/lib/ContentModule.js).

The document store is modelled as a list of nodes together with a counter
supplying fresh ids (the mongo layer assigns `_id` on insert).  Every
stateful method of `ContentModule` becomes a function in the state monad
`M α = DB → Except Err α × DB`: the returned database is kept even when an
error is raised, matching the fact that a thrown javascript exception does
not undo store writes already performed.

Modelling conventions, applied uniformly:
* `_id` values are natural numbers (mongo ObjectIds, compared via toString).
* `undefined` fields become `Option.none`; a mongo query `{k: v}` matches a
  node whose field equals `v`.
* `_sortOrder` is an `Option Int`; javascript `item._sortOrder - 1 > -1`
  is false when `_sortOrder` is `undefined` (NaN comparison), which the
  model reproduces by treating `none` as the append case.
* `Array.prototype.splice(i, 0, x)` clamps `i` to the array length, which
  `spliceAt` reproduces with `take`/`drop`.
* `_.sortBy` is a stable sort; it is modelled by `List.insertionSort`.
* the failure of an underlying store insert (schema validation, connection
  loss, ...) is modelled by the fault-injection field `DB.failAt`: the
  base-level insert raises `Err.storeFailure` when asked to create the node
  whose fresh id equals `failAt`.
* dereferencing `undefined` (a javascript TypeError) is `Err.crash`;
  a bare `throw Error()` is `Err.generic`.
-/

namespace Content

/-- The closed `_type` enumeration of content nodes. -/
inductive CType
  | course
  | config
  | menu
  | page
  | article
  | block
  | component
deriving DecidableEq, Repr

/-- Component layouts. -/
inductive Layout
  | full
  | left
  | right
deriving DecidableEq, Repr

/-- Errors raised by the engine. -/
inductive Err
  | notFound
  | invalidParent
  | generic
  | storeFailure
  | crash
  | fuelOut
deriving DecidableEq, Repr

/-- A content node (one document of the `content` collection). -/
structure Node where
  _id : Nat
  _type : CType
  _parentId : Option Nat := none
  _courseId : Option Nat := none
  _sortOrder : Option Int := none
  _layout : Option Layout := none
  _component : Option String := none
  _enabledPlugins : List String := []
  _menu : Option String := none
  _theme : Option String := none
  _trackingId : Option Nat := none
  createdBy : Option String := none
  title : Option String := none
  body : Option String := none
  _lang : Option String := none
  _defaultLanguage : Option String := none
deriving DecidableEq, Repr

/-- A shallow update delta (the `data` argument of `super.update`); a field
holding `some v` is written, a `none` field is left untouched. -/
structure Delta where
  _parentId : Option Nat := none
  _courseId : Option Nat := none
  _sortOrder : Option Int := none
  _enabledPlugins : Option (List String) := none
  title : Option String := none
deriving DecidableEq, Repr

/-- Static plugin-registry data supplied by the `contentplugin` and
`jsonschema` collaborators. -/
structure Registry where
  extensions : List String
  pluginSchemas : List (String × List String)
  schemaTarget : List (String × String)
  defaultLang : String := "en"
deriving DecidableEq, Repr

/-- The abstract document store plus the id supply and the registry. -/
structure DB where
  nodes : List Node
  nextId : Nat
  failAt : Option Nat := none
  reg : Registry
deriving DecidableEq, Repr

/-- Per-call options of `insert` / `update` (`options.updateSortOrder`,
`options.updateEnabledPlugins`, `options.forceUpdate`). -/
structure Opts where
  updateSortOrder : Bool := true
  updateEnabledPlugins : Bool := true
deriving DecidableEq, Repr

/-- Apply a shallow delta to a node. -/
def applyDelta (d : Delta) (n : Node) : Node :=
  { n with
    _parentId := match d._parentId with | some v => some v | none => n._parentId
    _courseId := match d._courseId with | some v => some v | none => n._courseId
    _sortOrder := match d._sortOrder with | some v => some v | none => n._sortOrder
    _enabledPlugins := match d._enabledPlugins with | some v => v | none => n._enabledPlugins
    title := match d.title with | some v => some v | none => n.title }

/-- The state monad of the engine: a computation transforms the store and
either yields a value or an error, keeping the store in both cases. -/
def M (α : Type) : Type := DB → Except Err α × DB

instance : Monad M where
  pure a := fun db => (Except.ok a, db)
  bind x f := fun db =>
    match x db with
    | (Except.ok a, db1) => f a db1
    | (Except.error e, db1) => (Except.error e, db1)

/-- Read the current store. -/
def getDB : M DB := fun db => (Except.ok db, db)

/-- Raise an error. -/
def throwM {α : Type} (e : Err) : M α := fun db => (Except.error e, db)

theorem bind_run {α β : Type} (x : M α) (f : α → M β) (db : DB) :
    (x >>= f) db =
      match x db with
      | (Except.ok a, db1) => f a db1
      | (Except.error e, db1) => (Except.error e, db1) := rfl

theorem pure_run {α : Type} (a : α) (db : DB) :
    (pure a : M α) db = (Except.ok a, db) := rfl

theorem getDB_run (db : DB) : getDB db = (Except.ok db, db) := rfl

theorem throwM_run {α : Type} (e : Err) (db : DB) :
    (throwM e : M α) db = (Except.error e, db) := rfl

/-! ### Pure read helpers (`this.find` with the query shapes used by the module) -/

/-- `find({_id: id})` returning at most one node. -/
def findById (db : DB) (id : Nat) : Option Node :=
  db.nodes.find? (fun n => n._id == id)

/-- `find({_parentId: pid})`. -/
def childrenOf (db : DB) (pid : Nat) : List Node :=
  db.nodes.filter (fun n => n._parentId == some pid)

/-- `find({_courseId: cid})`. -/
def courseItemsOf (db : DB) (cid : Option Nat) : List Node :=
  db.nodes.filter (fun n => n._courseId == cid)

/-- Comparison key used by `_.sortBy(children, '_sortOrder')`: a missing
`_sortOrder` sorts before every number. -/
def soLEb (a b : Node) : Bool :=
  match a._sortOrder, b._sortOrder with
  | none, _ => true
  | some _, none => false
  | some x, some y => x ≤ y

def soLE (a b : Node) : Prop := soLEb a b = true

instance : DecidableRel soLE := fun a b => by
  unfold soLE; infer_instance

instance : IsTotal Node soLE := by
  constructor
  intro a b
  unfold soLE soLEb
  rcases a._sortOrder with _ | x <;> rcases b._sortOrder with _ | y <;> simp
  omega

instance : IsTrans Node soLE := by
  constructor
  intro a b c
  unfold soLE soLEb
  rcases a._sortOrder with _ | x <;> rcases b._sortOrder with _ | y <;>
    rcases c._sortOrder with _ | z <;> simp
  omega

/-- Stable sort by `_sortOrder`. -/
def sortSO (l : List Node) : List Node := List.insertionSort soLE l

/-- `findSiblings(parentId, excludeId, shouldSort = true)`. -/
def findSiblings (db : DB) (pid : Nat) (excl : Option Nat) : List Node :=
  sortSO (db.nodes.filter (fun n =>
    n._parentId == some pid && (match excl with | some e => n._id != e | none => true)))

/-- `Array.prototype.splice(i, 0, a)`, with index clamping. -/
def spliceAt (l : List Node) (i : Nat) (a : Node) : List Node :=
  l.take i ++ a :: l.drop i

/-- `Array.from(new Set(l))`: deduplicate keeping first occurrences. -/
def dedupFirst {α : Type} [DecidableEq α] (l : List α) : List α :=
  l.foldl (fun acc a => if a ∈ acc then acc else acc ++ [a]) []

/-! ### Base store operations (`super.insert` / `super.update` / `super.delete`) -/

/-- The base-level insert: assigns the fresh `_id` and appends the document;
fails (without touching the store) when fault injection demands it. -/
def baseInsert (data : Node) : M Node := fun db =>
  if db.failAt = some db.nextId then (Except.error Err.storeFailure, db)
  else
    let n : Node := { data with _id := db.nextId }
    (Except.ok n, { db with nodes := db.nodes ++ [n], nextId := db.nextId + 1 })

/-- The base-level update by `_id`: shallow-merges the delta into the matching
document and returns the merged document. -/
def baseUpdate (id : Nat) (d : Delta) : M Node := fun db =>
  match db.nodes.find? (fun n => n._id == id) with
  | none => (Except.error Err.notFound, db)
  | some n =>
      (Except.ok (applyDelta d n),
       { db with nodes := db.nodes.map (fun m => if m._id == id then applyDelta d m else m) })

/-- The base-level delete by `_id` (deleting a missing id is a no-op). -/
def baseDelete (id : Nat) : M Unit := fun db =>
  (Except.ok (), { db with nodes := db.nodes.filter (fun n => n._id != id) })

/-- Lift a pure `Except` result into the state monad. -/
def liftE {α : Type} : Except Err α → M α
  | Except.ok a => pure a
  | Except.error e => throwM e

/-! ### updateSortOrder -/

/-- The renumbering loop of `updateSortOrder`: position `s` (0-based) receives
`_sortOrder = s + 1`, and a store write is issued only when the value differs. -/
def renumberFrom (s : Nat) : List Node → M Unit
  | [] => pure ()
  | sib :: rest =>
      if sib._sortOrder = some ((s : Int) + 1) then renumberFrom (s + 1) rest
      else do
        let _ ← baseUpdate sib._id { _sortOrder := some ((s : Int) + 1) }
        renumberFrom (s + 1) rest

/-- `updateSortOrder(item, updateData)`; `isUpdate` is the truthiness of the
`updateData` argument (an object for insert/update, `undefined` for deletion). -/
def updateSortOrder (item : Node) (isUpdate : Bool) : M Unit := do
  if item._type = CType.config ∨ item._type = CType.course ∨ item._parentId = none then
    pure ()
  else
    match item._parentId with
    | none => pure ()
    | some pid => do
        let db ← getDB
        if isUpdate then
          let sibs := findSiblings db pid (some item._id)
          let newSO : Nat :=
            match item._sortOrder with
            | some so => if so - 1 > -1 then (so - 1).toNat else sibs.length
            | none => sibs.length
          renumberFrom 0 (spliceAt sibs newSO item)
        else
          match findById db pid with
          | none => throwM Err.crash
          | some parent => renumberFrom 0 (findSiblings db parent._id none)

/-! ### updateEnabledPlugins -/

/-- `contentplugin.getPluginSchemas(p)`; an undefined plugin name yields no
schemas. -/
def schemasOfPlugin (reg : Registry) (p : Option String) : List String :=
  match p with
  | none => []
  | some s => (reg.pluginSchemas.lookup s).getD []

/-- Resolve the `$merge`/`$patch` source `$ref` of a plugin schema into the
list of affected content types; a `contentobject` target expands to `menu`
and `page`, an unresolved target yields a single undefined entry. -/
def schemaTypeList (reg : Registry) (sn : String) : List (Option String) :=
  match reg.schemaTarget.lookup sn with
  | some t => if t = "contentobject" then [some "menu", some "page"] else [some t]
  | none => [none]

/-- The accumulator step of the type-collection reduce: keep defined types
other than `component`, without duplicates. -/
def addType (m : List String) (t : Option String) : List String :=
  match t with
  | none => m
  | some s => if s != "component" && !(m.contains s) then m ++ [s] else m

/-- `list.includes(p)` for a possibly-undefined candidate entry. -/
def inclStr (l : List String) (p : Option String) : Bool :=
  match p with
  | some s => l.contains s
  | none => false

def ctypeName : CType → String
  | CType.course => "course"
  | CType.config => "config"
  | CType.menu => "menu"
  | CType.page => "page"
  | CType.article => "article"
  | CType.block => "block"
  | CType.component => "component"

/-- `super.update({ _courseId, _type: 'config' }, d)`. -/
def queryUpdateConfig (courseId : Option Nat) (d : Delta) : M Node := fun db =>
  match db.nodes.find? (fun n => n._courseId == courseId && n._type == CType.config) with
  | none => (Except.error Err.notFound, db)
  | some n => baseUpdate n._id d db

/-- The per-document empty-delta re-saves issued to force default
re-application. -/
def noopUpdates : List Node → M Unit
  | [] => pure ()
  | c :: rest => do
      let _ ← baseUpdate c._id {}
      noopUpdates rest

/-- The unique candidate plugin list of `updateEnabledPlugins`: extensions
still in use from the current list, the `_component` of every component of
the course, and the menu and theme plugins, deduplicated in first-seen
order.  Entries are `Option String` because the javascript `Set` receives
the raw (possibly undefined) field values. -/
def enabledCandidate (db : DB) (courseId : Option Nat) (config : Node) : List (Option String) :=
  dedupFirst
    ((config._enabledPlugins.filter (fun p => db.reg.extensions.contains p)).map some
      ++ ((courseItemsOf db courseId).filter (fun c => c._type == CType.component)).map
          (fun c => c._component)
      ++ [config._menu, config._theme])

/-- The content types whose documents must be re-saved so that freshly
enabled plugin schemas apply their defaults: resolved from the plugin
schemas of every newly added (or, under `forceUpdate`, every) candidate
plugin. -/
def enabledTypes (db : DB) (courseId : Option Nat) (forceUpdate : Bool) (config : Node) :
    List String :=
  (((enabledCandidate db courseId config).filter
      (fun p => forceUpdate || !(inclStr config._enabledPlugins p))).flatMap
    (schemasOfPlugin db.reg)).foldl
    (fun acc sn => (schemaTypeList db.reg sn).foldl addType acc) []

/-- The write phase of `updateEnabledPlugins`: persist the candidate list on
the config document, then issue the per-document empty-delta re-saves for
every affected content type. -/
def updateEnabledPluginsWrite (courseId : Option Nat) (forceUpdate : Bool) (config : Node) :
    M Unit := fun db =>
  match queryUpdateConfig courseId
      { _enabledPlugins := some ((enabledCandidate db courseId config).filterMap id) } db with
  | (Except.error e, db1) => (Except.error e, db1)
  | (Except.ok _, db1) =>
      if (enabledTypes db courseId forceUpdate config).length > 0 then
        noopUpdates (db1.nodes.filter (fun n =>
          n._courseId == courseId
            && (enabledTypes db courseId forceUpdate config).contains (ctypeName n._type))) db1
      else (Except.ok (), db1)

/-- The per-config phase of `updateEnabledPlugins`: short-circuit without
any store write when, besides `forceUpdate` being unset, the candidate list
has the same length as the current `_enabledPlugins` and contains every
current entry. -/
def updateEnabledPluginsCore (courseId : Option Nat) (forceUpdate : Bool) (config : Node) :
    M Unit := fun db =>
  if !forceUpdate && config._enabledPlugins.length == (enabledCandidate db courseId config).length
      && config._enabledPlugins.all (fun p => (enabledCandidate db courseId config).contains (some p))
  then (Except.ok (), db)
  else updateEnabledPluginsWrite courseId forceUpdate config db

/-- `updateEnabledPlugins({ _courseId }, options)`.  The persisted value
keeps the defined entries of the candidate list (the stores considered
here only ever hold defined plugin names, see the well-formedness
hypotheses of the theorems below); a course without a config document is
left untouched. -/
def updateEnabledPlugins (courseId : Option Nat) (forceUpdate : Bool) : M Unit := fun db =>
  match (courseItemsOf db courseId).find? (fun c => c._type == CType.config) with
  | none => (Except.ok (), db)
  | some config => updateEnabledPluginsCore courseId forceUpdate config db

/-! ### The overridden CRUD operations -/

/-- The overridden `update(query, data)` (queries used by the module resolve
a single `_id`): the base write, then the sort-order maintainer, then the
plugin reconciler (forced when the delta itself supplies
`_enabledPlugins`). -/
def update (i : Nat) (d : Delta) : M Node := fun db =>
  match baseUpdate i d db with
  | (Except.error e, db1) => (Except.error e, db1)
  | (Except.ok doc, db1) =>
      match updateSortOrder doc true db1 with
      | (Except.error e, db2) => (Except.error e, db2)
      | (Except.ok _, db2) =>
          match updateEnabledPlugins doc._courseId d._enabledPlugins.isSome db2 with
          | (Except.error e, db3) => (Except.error e, db3)
          | (Except.ok _, db3) => (Except.ok doc, db3)

/-- The overridden `insert(data, options)`: for non-course/config data the
parent must resolve (else a bare `Error()` is thrown), a created course is
immediately back-patched with `_courseId = _id` through the overridden
update, and otherwise the sort-order maintainer and plugin reconciler run
unless disabled per call. -/
def insert (data : Node) (opts : Opts) : M Node := fun db =>
  if data._type ≠ CType.course ∧ data._type ≠ CType.config
      ∧ (data._parentId.bind (findById db)).isNone then
    (Except.error Err.generic, db)
  else
    match baseInsert data db with
    | (Except.error e, db1) => (Except.error e, db1)
    | (Except.ok doc, db1) =>
        if data._type = CType.course then
          update doc._id { _courseId := some doc._id } db1
        else
          match (if opts.updateSortOrder then updateSortOrder doc true else pure ()) db1 with
          | (Except.error e, db2) => (Except.error e, db2)
          | (Except.ok _, db2) =>
              match (if opts.updateEnabledPlugins then updateEnabledPlugins doc._courseId false
                     else pure ()) db2 with
              | (Except.error e, db3) => (Except.error e, db3)
              | (Except.ok _, db3) => (Except.ok doc, db3)

/-! ### getDescendants and delete -/

/-- One breadth-first expansion step: all course items whose `_parentId` is
an id of the current frontier. -/
def bfsStep (ci : List Node) (frontier : List Node) : List Node :=
  frontier.flatMap (fun i => ci.filter (fun c => c._parentId == some i._id))

/-- The do/while frontier loop of `getDescendants`, with explicit fuel for
the source's unbounded loop (`none` marks divergence on a cyclic store). -/
def bfsAux (ci : List Node) : Nat → List Node → Option (List Node)
  | 0, _ => none
  | fuel + 1, frontier =>
      let next := bfsStep ci frontier
      if next.isEmpty then some []
      else (bfsAux ci fuel next).map (fun l => next ++ l)

/-- `getDescendants(rootItem)`.  The entries are `Option Node` because for a
course root the raw result of the config lookup is pushed unguarded, so the
final array can contain `undefined`. -/
def getDescendants (db : DB) (root : Node) : Option (List (Option Node)) :=
  let ci := courseItemsOf db root._courseId
  (bfsAux ci (ci.length + 1) [root]).map (fun l =>
    let ds := l.map some
    if root._type = CType.course then ds ++ [ci.find? (fun c => c._type == CType.config)]
    else ds)

/-- Delete every listed document; dereferencing an `undefined` entry crashes
after the preceding deletions have been issued. -/
def deleteAll : List (Option Node) → M Unit
  | [] => pure ()
  | some d :: rest => do
      baseDelete d._id
      deleteAll rest
  | none :: _ => throwM Err.crash

/-- The overridden `delete(query)`: resolve the target, delete it together
with its descendants, then reconcile plugins and sort order. -/
def deleteOp (q : Node → Bool) : M (List (Option Node)) := fun db =>
  match db.nodes.find? q with
  | none => (Except.error Err.notFound, db)
  | some target =>
      match getDescendants db target with
      | none => (Except.error Err.fuelOut, db)
      | some descendants =>
          match deleteAll (descendants ++ [some target]) db with
          | (Except.error e, db1) => (Except.error e, db1)
          | (Except.ok _, db1) =>
              match updateEnabledPlugins target._courseId false db1 with
              | (Except.error e, db2) => (Except.error e, db2)
              | (Except.ok _, db2) =>
                  match updateSortOrder target false db2 with
                  | (Except.error e, db3) => (Except.error e, db3)
                  | (Except.ok _, db3) => (Except.ok (some target :: descendants), db3)

/-! ### Hierarchy traversal -/

/-- `descendToType(node, type)`: repeatedly take the last-sorted child. -/
def descendToType (db : DB) : Nat → Node → CType → Except Err Node
  | 0, _, _ => Except.error Err.fuelOut
  | fuel + 1, node, t =>
      let children := childrenOf db node._id
      if children.isEmpty then Except.ok node
      else
        match (sortSO children).getLast? with
        | none => Except.error Err.crash
        | some lastChild =>
            if lastChild._type = t then Except.ok lastChild
            else descendToType db fuel lastChild t

/-- `ascendToType(node, type)`: climb `_parentId` links. -/
def ascendToType (db : DB) : Nat → Node → CType → Except Err Node
  | 0, _, _ => Except.error Err.fuelOut
  | fuel + 1, node, t =>
      match node._parentId.bind (findById db) with
      | none => Except.error Err.invalidParent
      | some parent =>
          if parent._type = t then Except.ok parent
          else ascendToType db fuel parent t

/-! ### cut, append, insertRecursive, appendToBlock -/

/-- `cut(parent, child, sortOrder)`: re-parent via the overridden update; the
`_courseId` rewrite present in earlier revisions is commented out in the
source and therefore absent here. -/
def cut (parent child : Node) (sortOrder : Option Int) : M Node :=
  update child._id { _parentId := some parent._id, _sortOrder := sortOrder }

/-- `append(parent, child, isCut, options)`. -/
def append (parent child : Node) (isCut : Bool) (opts : Opts) : M Node :=
  if isCut then cut parent child child._sortOrder
  else
    insert { child with _courseId := parent._courseId, _parentId := some parent._id } opts

/-- The built-in placeholder defaults of `insertRecursive`; localized strings
are modelled by their lookup keys. -/
def defaultData (t : CType) (createdBy : String) : Node :=
  match t with
  | CType.page => { _id := 0, _type := t, createdBy := some createdBy,
                    title := some "app.newpagetitle" }
  | CType.article => { _id := 0, _type := t, createdBy := some createdBy,
                       title := some "app.newarticletitle" }
  | CType.block => { _id := 0, _type := t, createdBy := some createdBy,
                     title := some "app.newblocktitle" }
  | CType.component => { _id := 0, _type := t, createdBy := some createdBy,
                         _component := some "adapt-contrib-text", _layout := some Layout.full,
                         title := some "app.newtextcomponenttitle",
                         body := some "app.newtextcomponentbody" }
  | _ => { _id := 0, _type := t, createdBy := some createdBy }

def typeHierarchyAll : List CType :=
  [CType.course, CType.menu, CType.page, CType.article, CType.block, CType.component]

/-- The child-type chain inference of `insertRecursive` when no explicit
hierarchy is given. -/
def inferChildTypes (parent : Node) (isMenu : Bool) : List CType :=
  if isMenu then [CType.menu, CType.page, CType.article, CType.block, CType.component]
  else
    let l1 := if parent._type = CType.course
      then [CType.course, CType.page, CType.article, CType.block, CType.component]
      else typeHierarchyAll
    let start := match l1.findIdx? (fun t => t == parent._type) with
      | some i => i + 1
      | none => 0
    l1.drop start

/-- The document payload assembled for one level of the creation loop: the
per-type defaults, then parent linkage (`_parentId`, `_courseId`, `_lang`),
then the caller data, and for a config the inherited default language. -/
def recData (t : CType) (createdBy : String) (parent : Node) (cid : Nat)
    (customData : Option Delta) : Node :=
  let base := defaultData t createdBy
  let data0 := { base with _parentId := some parent._id, _courseId := some cid,
                           _lang := parent._lang }
  let data1 := match customData with
    | some cd => applyDelta cd data0
    | none => data0
  if t = CType.config then
    { data1 with _defaultLanguage := match parent._lang with
        | some l => some l
        | none => some "en" }
  else data1

/-- The creation loop of `insertRecursive`; `customData` is applied to the
first created item only, and a created `config` does not become the parent
of the next level. -/
def insertRecLoop (createdBy : String) (opts : Opts) :
    Node → Option Delta → List CType → M (List Node)
  | _, _, [] => pure []
  | parent, customData, t :: rest => fun db =>
      match parent._courseId with
      | none => (Except.error Err.crash, db)
      | some cid =>
          match insert (recData t createdBy parent cid customData) opts db with
          | (Except.error e, db1) => (Except.error e, db1)
          | (Except.ok item, db1) =>
              match insertRecLoop createdBy opts (if t ≠ CType.config then item else parent)
                  none rest db1 with
              | (Except.error e, db2) => (Except.error e, db2)
              | (Except.ok items, db2) => (Except.ok (item :: items), db2)

/-- The payload of a brand-new course created when `insertRecursive`
receives no root. -/
def courseSeedData (createdBy : String) (customData : Option Delta) : Node :=
  let base : Node := { _id := 0, _type := CType.course, createdBy := some createdBy }
  match customData with
  | some cd => applyDelta cd base
  | none => base

/-- The child-type chain used for a given root. -/
def childTypesOf (parent : Node) (isMenu : Bool) (childTypes0 : Option (List CType)) :
    List CType :=
  match childTypes0 with
  | some l => l
  | none => inferChildTypes parent isMenu

/-- `insertRecursive(rootId, createdBy, customData, isMenu, childTypes,
options)` as in the source: no try/catch surrounds the creation loop, so a
mid-chain failure propagates without compensating deletes. -/
def insertRecursive (rootId : Option Nat) (createdBy : String) (customData : Option Delta)
    (isMenu : Bool) (childTypes0 : Option (List CType)) (opts : Opts) : M (List Node) := fun db =>
  match rootId with
  | none =>
      (match insert (courseSeedData createdBy customData) {} db with
       | (Except.error e, db1) => (Except.error e, db1)
       | (Except.ok parent, db1) =>
           match insertRecLoop createdBy opts parent none
               [CType.config, CType.page, CType.article, CType.block, CType.component] db1 with
           | (Except.error e, db2) => (Except.error e, db2)
           | (Except.ok items, db2) => (Except.ok (parent :: items), db2))
  | some rid =>
      match findById db rid with
      | none => (Except.error Err.crash, db)
      | some parent =>
          insertRecLoop createdBy opts parent customData (childTypesOf parent isMenu childTypes0) db

/-- `constructToType(node, type, userId, options)`. -/
def constructToType (node : Node) (t : CType) (userId : String) (opts : Opts) : M (List Node) :=
  let th := [CType.course, CType.page, CType.article, CType.block, CType.component]
  let start := match th.findIdx? (fun x => x == node._type) with
    | some i => i + 1
    | none => 0
  let stop := match th.findIdx? (fun x => x == t) with
    | some i => i + 1
    | none => 0
  insertRecursive (some node._id) userId none false (some ((th.take stop).drop start)) opts

/-- `block._sortOrder + 1` on an `Option Int`; an undefined operand yields
NaN whose downstream behaviour coincides with an undefined `_sortOrder`. -/
def soPlus : Option Int → Option Int
  | some so => some (so + 1)
  | none => none

/-- The shared tail of `appendToBlock`: cut or append into the (possibly
newly created) block.  The source passes its `options` object as the
`sortOrder` argument of `cut`; a non-numeric sort order behaves downstream
like an undefined one. -/
def finishAppendToBlock (block comp : Node) (isCut : Bool) (opts : Opts) : M Node :=
  if isCut then cut block comp none
  else append block comp false opts

/-- `appendToBlock(block, component, userId, isCut, options)`. -/
def appendToBlock (block comp : Node) (userId : String) (isCut : Bool) (opts : Opts) :
    M Node := fun db =>
  let children := childrenOf db block._id
  let leftChild := children.find? (fun c => c._layout == some Layout.left)
  let rightChild := children.find? (fun c => c._layout == some Layout.right)
  if leftChild.isSome ∧ rightChild.isNone then
    finishAppendToBlock block { comp with _layout := some Layout.right } isCut opts db
  else if leftChild.isNone ∧ rightChild.isSome then
    finishAppendToBlock block { comp with _layout := some Layout.left } isCut opts db
  else if children.length > 0 then
    match insertRecursive block._parentId userId
        (some { _sortOrder := soPlus block._sortOrder }) false (some [CType.block]) opts db with
    | (Except.error e, db1) => (Except.error e, db1)
    | (Except.ok items, db1) =>
        match items.head? with
        | none => (Except.error Err.crash, db1)
        | some newBlock => finishAppendToBlock newBlock comp isCut opts db1
  else
    finishAppendToBlock block comp isCut opts db

/-! ### clone -/

/-- `typeHierarchy.indexOf(t)` with the javascript `-1` for a missing entry. -/
def idxOf (l : List CType) (t : CType) : Int :=
  match l.findIdx? (fun x => x == t) with
  | some i => (i : Int)
  | none => -1

/-- `typeHierarchy[i]` for a signed index (negative indices are undefined). -/
def getAtInt (l : List CType) (i : Int) : Option CType :=
  if i < 0 then none else l.get? i.toNat

/-- The shared inner placement of clone scenario 2 (source lines 357-366):
construct the remaining subtree when needed, then append. -/
def cloneIntoNode (node : Node) (rt : CType) (sourceType : CType) (proposed : Node)
    (userId : String) (isCut : Bool) (opts : Opts) : M Node := do
  if node._type ≠ rt then do
    let built ← constructToType node rt userId opts
    match built.getLast? with
    | none => throwM Err.crash
    | some node2 => append node2 proposed isCut opts
  else
    if sourceType = CType.component then appendToBlock node proposed userId isCut opts
    else append node proposed isCut opts

/-- The sequential recursion of `clone` over the children of the original,
abstracted over the one-level-down clone (`cl cid` clones the child with id
`cid`) so that the fuel recursion of `clone` stays structural. -/
def cloneChildren (cl : Nat → M Node) : List Node → M Unit
  | [] => pure ()
  | c :: rest => do
      let _ ← cl c._id
      cloneChildren cl rest

/-- `clone(userId, _id, _parentId, customData, globalData, isCut, options)`
with explicit fuel for the recursion over the children of the original. -/
def clone : Nat → String → Nat → Option Nat → Delta → Delta → Bool → Opts → M Node
  | 0, _, _, _, _, _, _, _ => throwM Err.fuelOut
  | fuel + 1, userId, id, parentId, customData, globalData, isCut, opts => do
      let db ← getDB
      match findById db id with
      | none => throwM Err.notFound
      | some originalDoc => do
          let parentOpt := parentId.bind (findById db)
          if parentOpt.isNone ∧ originalDoc._type ≠ CType.course
              ∧ originalDoc._type ≠ CType.config then
            throwM Err.invalidParent
          else do
            let newData ←
              match parentOpt with
              | some parent => do
                  let th := typeHierarchyAll
                  let sourceType := originalDoc._type
                  let idxSource := idxOf th sourceType
                  let idxMenu := idxOf th CType.menu
                  let idxPage := idxOf th CType.page
                  let idxTarget := idxOf th parent._type
                  let requiredTargetType := getAtInt th (idxSource - 1)
                  let proposedData := applyDelta globalData (applyDelta customData
                    { originalDoc with _trackingId := none, createdBy := some userId })
                  -- when not cutting the source also clears `_id`; the base
                  -- insert overwrites `_id` anyway, so the model elides it
                  let isCloneMenuIntoMenu := idxSource = idxMenu ∧ idxTarget = idxMenu
                  let isClonePageIntoAncestor := idxSource = idxPage ∧ idxTarget < idxPage
                  let isCloneChildIntoParent := idxTarget = idxSource - 1
                  if isCloneMenuIntoMenu ∨ isClonePageIntoAncestor ∨ isCloneChildIntoParent then
                    if sourceType = CType.component then
                      appendToBlock parent proposedData userId isCut opts
                    else append parent proposedData isCut opts
                  else if idxTarget < idxSource - 1 then
                    match requiredTargetType with
                    | none => throwM Err.crash
                    | some rt =>
                        match customData._sortOrder with
                        | some so => do
                            let proposed2 := { proposedData with _sortOrder := none }
                            match getAtInt th (idxTarget + 1) with
                            | none => throwM Err.crash
                            | some containerType => do
                                let items ← insertRecursive parentId userId
                                  (some { _sortOrder := some so }) false (some [containerType]) opts
                                match items.head? with
                                | none => throwM Err.crash
                                | some node =>
                                    cloneIntoNode node rt sourceType proposed2 userId isCut opts
                        | none => do
                            let dbx ← getDB
                            let node ← liftE (descendToType dbx (dbx.nodes.length + 1) parent rt)
                            cloneIntoNode node rt sourceType proposedData userId isCut opts
                  else
                    match requiredTargetType with
                    | none => throwM Err.crash
                    | some rt => do
                        let dbx ← getDB
                        let ancestorOfSourceType ←
                          liftE (ascendToType dbx (dbx.nodes.length + 1) parent sourceType)
                        let node ← liftE (ascendToType dbx (dbx.nodes.length + 1) parent rt)
                        if sourceType = CType.component then
                          appendToBlock node proposedData userId isCut opts
                        else
                          append node
                            { proposedData with
                                _sortOrder := soPlus ancestorOfSourceType._sortOrder }
                            isCut opts
              | none =>
                  insert (applyDelta globalData (applyDelta customData
                    { originalDoc with _trackingId := none, _courseId := none,
                                       _parentId := parentId,
                                       createdBy := some userId })) opts
            if isCut then pure newData
            else do
              let db2 ← getDB
              let children := (childrenOf db2 id).filter (fun i => i._id != newData._id)
              cloneChildren
                (fun cid => clone fuel userId cid (some newData._id) {} globalData false opts)
                children
              pure newData

/-- `crossCourseCut(userId, _id, _parentId, customData)`: clone into the
destination course, then delete the source content. -/
def crossCourseCut (fuel : Nat) (userId : String) (id : Nat) (parentId : Option Nat)
    (customData : Delta) (opts : Opts) : M Node := do
  let newData ← clone fuel userId id parentId customData {} false opts
  let _ ← deleteOp (fun n => n._id == id)
  pure newData

/-! ## Verification infrastructure -/

theorem ite_run {α : Type} (c : Prop) [Decidable c] (x y : M α) (db : DB) :
    (if c then x else y) db = if c then x db else y db := by
  split <;> rfl

theorem applyDelta_empty (n : Node) : applyDelta {} n = n := rfl

theorem applyDelta_id (d : Delta) (n : Node) : (applyDelta d n)._id = n._id := rfl

theorem applyDelta_type (d : Delta) (n : Node) : (applyDelta d n)._type = n._type := rfl

/-- Node agreement up to `_sortOrder`. -/
def soOnly (n n' : Node) : Prop := n' = { n with _sortOrder := n'._sortOrder }

/-- Node agreement up to `_enabledPlugins`. -/
def epOnly (n n' : Node) : Prop := n' = { n with _enabledPlugins := n'._enabledPlugins }

/-- Node agreement up to `_sortOrder` and `_enabledPlugins`: the only fields
of a pre-existing node the cloning machinery may rewrite. -/
def soep (n n' : Node) : Prop :=
  n' = { n with _sortOrder := n'._sortOrder, _enabledPlugins := n'._enabledPlugins }

theorem soOnly_refl (n : Node) : soOnly n n := rfl

theorem epOnly_refl (n : Node) : epOnly n n := rfl

theorem soep_refl (n : Node) : soep n n := rfl

theorem soOnly_soep {n n' : Node} (h : soOnly n n') : soep n n' := by
  cases n; cases n'
  simp only [soOnly, Node.mk.injEq] at h
  simp only [soep, Node.mk.injEq]
  simp_all

theorem epOnly_soep {n n' : Node} (h : epOnly n n') : soep n n' := by
  cases n; cases n'
  simp only [epOnly, Node.mk.injEq] at h
  simp only [soep, Node.mk.injEq]
  simp_all

theorem soep_trans {a b c : Node} (h1 : soep a b) (h2 : soep b c) : soep a c := by
  cases a; cases b; cases c
  simp only [soep, Node.mk.injEq] at h1 h2 ⊢
  simp_all

theorem soOnly_trans {a b c : Node} (h1 : soOnly a b) (h2 : soOnly b c) : soOnly a c := by
  cases a; cases b; cases c
  simp only [soOnly, Node.mk.injEq] at h1 h2 ⊢
  simp_all

theorem soep_id {n n' : Node} (h : soep n n') : n'._id = n._id := by
  rw [h]

theorem soep_parentId {n n' : Node} (h : soep n n') : n'._parentId = n._parentId := by
  rw [h]

theorem soep_courseId {n n' : Node} (h : soep n n') : n'._courseId = n._courseId := by
  rw [h]

theorem soep_type {n n' : Node} (h : soep n n') : n'._type = n._type := by
  rw [h]

/-- In-place store transformation: every node is rewritten pointwise by a
function respecting `R`; ids, the id supply and the registry are untouched. -/
def InPlace (R : Node → Node → Prop) (db db' : DB) : Prop :=
  ∃ f, db' = { db with nodes := db.nodes.map f } ∧ ∀ n ∈ db.nodes, R n (f n)

/-- The write footprint of the non-cut mutation paths: pre-existing nodes
survive in place with at most `_sortOrder`/`_enabledPlugins` rewritten, and
new nodes are only appended. -/
def Ext (db db' : DB) : Prop :=
  ∃ f tail, db'.nodes = db.nodes.map f ++ tail ∧ (∀ n ∈ db.nodes, soep n (f n))
    ∧ db.nextId ≤ db'.nextId ∧ db'.failAt = db.failAt ∧ db'.reg = db.reg

theorem Ext_refl (db : DB) : Ext db db :=
  ⟨id, [], by simp, fun n _ => soep_refl n, le_refl _, rfl, rfl⟩

theorem Ext_trans {db1 db2 db3 : DB} (h1 : Ext db1 db2) (h2 : Ext db2 db3) : Ext db1 db3 := by
  obtain ⟨f, tail, hn, hf, hle, hfa, hrg⟩ := h1
  obtain ⟨g, tail2, hn2, hg, hle2, hfa2, hrg2⟩ := h2
  refine ⟨g ∘ f, tail.map g ++ tail2, ?_, ?_, le_trans hle hle2, hfa2.trans hfa, hrg2.trans hrg⟩
  · rw [hn2, hn]
    simp [List.map_append, List.map_map]
  · intro n hn1
    have hmem : f n ∈ db2.nodes := by
      rw [hn]
      exact List.mem_append_left _ (List.mem_map_of_mem f hn1)
    exact soep_trans (hf n hn1) (hg (f n) hmem)

theorem InPlace_soep_Ext {R : Node → Node → Prop} {db db' : DB}
    (hR : ∀ a b, R a b → soep a b) (h : InPlace R db db') : Ext db db' := by
  obtain ⟨f, hdb, hf⟩ := h
  exact ⟨f, [], by rw [hdb]; simp, fun n hn => hR n (f n) (hf n hn), by rw [hdb], by rw [hdb], by rw [hdb]⟩

theorem Ext_mem {db db' : DB} (h : Ext db db') :
    ∀ n ∈ db.nodes, ∃ n' ∈ db'.nodes, soep n n' := by
  obtain ⟨f, tail, hn, hf, _, _, _⟩ := h
  intro n hn1
  exact ⟨f n, by rw [hn]; exact List.mem_append_left _ (List.mem_map_of_mem f hn1), hf n hn1⟩

/-- Well-formed store: distinct ids, all below the id supply. -/
def WF (db : DB) : Prop :=
  (db.nodes.map (fun n => n._id)).Nodup ∧ ∀ n ∈ db.nodes, n._id < db.nextId

/-! ### Base operation lemmas -/

theorem find?_id_eq_of_mem_nodup {l : List Node} (hw : (l.map (fun n => n._id)).Nodup)
    {n : Node} (hn : n ∈ l) :
    l.find? (fun m => m._id == n._id) = some n := by
  induction l with
  | nil => cases hn
  | cons x xs ih =>
      simp only [List.map_cons, List.nodup_cons] at hw
      rcases List.mem_cons.mp hn with h | h
      · subst h
        simp [List.find?_cons]
      · have hne : (x._id == n._id) = false := by
          simp only [beq_eq_false_iff_ne, ne_eq]
          intro he
          exact hw.1 (he ▸ List.mem_map_of_mem (fun m => m._id) h)
        rw [List.find?_cons]
        simp only [hne, cond_false]
        exact ih hw.2 h

theorem baseInsert_ok {data : Node} {db : DB} (h : ¬ db.failAt = some db.nextId) :
    baseInsert data db =
      (Except.ok { data with _id := db.nextId },
       { db with nodes := db.nodes ++ [{ data with _id := db.nextId }],
                 nextId := db.nextId + 1 }) := by
  simp [baseInsert, h]

theorem baseInsert_fail {data : Node} {db : DB} (h : db.failAt = some db.nextId) :
    baseInsert data db = (Except.error Err.storeFailure, db) := by
  simp [baseInsert, h]

theorem baseInsert_ext (data : Node) (db : DB) : Ext db (baseInsert data db).2 := by
  by_cases h : db.failAt = some db.nextId
  · rw [baseInsert_fail h]; exact Ext_refl db
  · rw [baseInsert_ok h]
    exact ⟨id, [{ data with _id := db.nextId }], by simp, fun n _ => soep_refl n,
      Nat.le_succ _, rfl, rfl⟩

theorem baseUpdate_inplace (i : Nat) (d : Delta) (db : DB) :
    InPlace (fun n n' => n' = n ∨ n' = applyDelta d n) db ((baseUpdate i d) db).2 := by
  unfold baseUpdate
  cases h : db.nodes.find? (fun n => n._id == i) with
  | none =>
      exact ⟨fun n => n, by simp, fun n _ => Or.inl rfl⟩
  | some n =>
      refine ⟨fun m => if m._id == i then applyDelta d m else m, by simp, ?_⟩
      intro m _
      dsimp only
      by_cases hm : (m._id == i) = true
      · rw [if_pos hm]; exact Or.inr rfl
      · rw [if_neg hm]; exact Or.inl rfl

theorem baseUpdate_found {i : Nat} {d : Delta} {db : DB} {n : Node}
    (h : db.nodes.find? (fun m => m._id == i) = some n) :
    baseUpdate i d db =
      (Except.ok (applyDelta d n),
       { db with nodes := db.nodes.map (fun m => if m._id == i then applyDelta d m else m) }) := by
  simp [baseUpdate, h]

theorem mem_id_unique {l : List Node} (hw : (l.map (fun n => n._id)).Nodup)
    {a b : Node} (ha : a ∈ l) (hb : b ∈ l) (hid : a._id = b._id) : a = b := by
  have h1 := find?_id_eq_of_mem_nodup hw ha
  have h2 := find?_id_eq_of_mem_nodup hw hb
  rw [hid] at h1
  rw [h1] at h2
  exact Option.some.injEq .. ▸ h2 ▸ rfl

/-! ### The renumbering loop, characterized -/

/-- Position of the node with a given id in a sibling list. -/
def idIdx (id0 : Nat) : List Node → Option Nat
  | [] => none
  | x :: rest => if x._id == id0 then some 0 else (idIdx id0 rest).map (· + 1)

/-- The pointwise effect of the renumbering loop on the store: a node listed
at position `i` receives `_sortOrder = s + i + 1`, other nodes are kept. -/
def soPatch (s : Nat) (sibs : List Node) (n : Node) : Node :=
  match idIdx n._id sibs with
  | some i => { n with _sortOrder := some (((s + i : Nat) : Int) + 1) }
  | none => n

theorem soPatch_nil (s : Nat) (n : Node) : soPatch s [] n = n := rfl

theorem idIdx_not_mem {id0 : Nat} {l : List Node} (h : id0 ∉ l.map (fun n => n._id)) :
    idIdx id0 l = none := by
  induction l with
  | nil => rfl
  | cons x rest ih =>
      simp only [List.map_cons, List.mem_cons, not_or] at h
      have hx : (x._id == id0) = false := by
        simp only [beq_eq_false_iff_ne, ne_eq]
        exact fun he => h.1 he.symm
      simp [idIdx, hx, ih h.2]

theorem soPatch_shift {s : Nat} {x : Node} {rest : List Node} {n : Node}
    (hne : (x._id == n._id) = false) :
    soPatch s (x :: rest) n = soPatch (s + 1) rest n := by
  unfold soPatch
  rw [show idIdx n._id (x :: rest) = (idIdx n._id rest).map (· + 1) by
    simp [idIdx, hne]]
  cases h : idIdx n._id rest with
  | none => rfl
  | some i =>
      show ({ n with _sortOrder := some (((s + (i + 1) : Nat) : Int) + 1) } : Node)
        = { n with _sortOrder := some (((s + 1 + i : Nat) : Int) + 1) }
      rw [show s + (i + 1) = s + 1 + i from by omega]

theorem renumberFrom_eq {sibs : List Node} {db : DB} {s : Nat}
    (hnodup : (sibs.map (fun n => n._id)).Nodup)
    (hdb : (db.nodes.map (fun n => n._id)).Nodup)
    (hmem : ∀ x ∈ sibs, x ∈ db.nodes) :
    renumberFrom s sibs db =
      (Except.ok (), { db with nodes := db.nodes.map (soPatch s sibs) }) := by
  induction sibs generalizing s db with
  | nil =>
      show (pure () : M Unit) db = _
      rw [pure_run]
      have h0 : db.nodes.map (soPatch s []) = db.nodes := by
        rw [show soPatch s [] = fun n => n from funext (soPatch_nil s)]
        simp
      rw [h0]
  | cons x rest ih =>
      have hxdb : x ∈ db.nodes := hmem x (List.mem_cons_self x rest)
      have hfind : db.nodes.find? (fun m => m._id == x._id) = some x :=
        find?_id_eq_of_mem_nodup hdb hxdb
      simp only [List.map_cons, List.nodup_cons] at hnodup
      have hrestn : (rest.map (fun n => n._id)).Nodup := hnodup.2
      have hxrest : x._id ∉ rest.map (fun n => n._id) := hnodup.1
      have hpoint : ∀ n, n._id ≠ x._id →
          soPatch s (x :: rest) n = soPatch (s + 1) rest n := by
        intro n hne
        refine soPatch_shift ?_
        simp only [beq_eq_false_iff_ne, ne_eq]
        exact fun he => hne he.symm
      -- the patched head: position 0 receives s + 1
      have hhead : ∀ n, n._id = x._id →
          soPatch s (x :: rest) n = { n with _sortOrder := some ((s : Int) + 1) } := by
        intro n hid
        unfold soPatch
        rw [show idIdx n._id (x :: rest) = some 0 by simp [idIdx, hid]]
        show ({ n with _sortOrder := some (((s + 0 : Nat) : Int) + 1) } : Node) = _
        rw [show ((s + 0 : Nat) : Int) + 1 = ((s : Nat) : Int) + 1 by omega]
      show renumberFrom s (x :: rest) db = _
      rw [renumberFrom]
      by_cases hso : x._sortOrder = some ((s : Int) + 1)
      · rw [if_pos hso]
        rw [ih hrestn hdb (fun y hy => hmem y (List.mem_cons_of_mem x hy))]
        have hmapeq : db.nodes.map (soPatch (s + 1) rest) = db.nodes.map (soPatch s (x :: rest)) := by
          apply List.map_congr_left
          intro n hn
          by_cases hid : n._id = x._id
          · have hnx : n = x := mem_id_unique hdb hn hxdb hid
            rw [hhead n hid]
            unfold soPatch
            rw [idIdx_not_mem (by rw [hid]; exact hxrest)]
            rw [hnx, ← hso]
          · rw [hpoint n hid]
        rw [hmapeq]
      · rw [if_neg hso]
        rw [bind_run, baseUpdate_found hfind]
        set u : Node → Node := fun m =>
          if m._id == x._id then applyDelta { _sortOrder := some ((s : Int) + 1) } m else m with hu
        have huid : ∀ m, (u m)._id = m._id := by
          intro m
          simp only [hu]
          by_cases hm : (m._id == x._id) = true
          · rw [if_pos hm, applyDelta_id]
          · rw [if_neg hm]
        have hids1 : ((db.nodes.map u).map (fun n => n._id)).Nodup := by
          rw [List.map_map]
          rw [show ((fun n => n._id) ∘ u) = fun n => n._id from funext huid]
          exact hdb
        have hmem1 : ∀ y ∈ rest, y ∈ db.nodes.map u := by
          intro y hy
          have hyne : (y._id == x._id) = false := by
            simp only [beq_eq_false_iff_ne, ne_eq]
            intro he
            exact hxrest (he ▸ List.mem_map_of_mem (fun n => n._id) hy)
          have hyu : u y = y := by
            simp only [hu]
            rw [if_neg (by simp [hyne])]
          rw [← hyu]
          exact List.mem_map_of_mem _ (hmem y (List.mem_cons_of_mem x hy))
        show renumberFrom (s + 1) rest { db with nodes := db.nodes.map u } = _
        rw [ih hrestn hids1 hmem1]
        have hmapeq : (db.nodes.map u).map (soPatch (s + 1) rest)
            = db.nodes.map (soPatch s (x :: rest)) := by
          rw [List.map_map]
          apply List.map_congr_left
          intro n hn
          show soPatch (s + 1) rest (u n) = soPatch s (x :: rest) n
          by_cases hid : n._id = x._id
          · have hun : u n = applyDelta { _sortOrder := some ((s : Int) + 1) } n := by
              simp [hu, hid]
            rw [hun]
            have hdone : soPatch (s + 1) rest
                (applyDelta { _sortOrder := some ((s : Int) + 1) } n)
                = applyDelta { _sortOrder := some ((s : Int) + 1) } n := by
              unfold soPatch
              rw [idIdx_not_mem (by rw [applyDelta_id, hid]; exact hxrest)]
            rw [hdone, hhead n hid]
            rfl
          · have hun : u n = n := by
              simp only [hu]
              rw [if_neg (by simp [hid])]
            rw [hun, hpoint n hid]
        rw [hmapeq]

/-- When every position already carries its target value the loop writes
nothing at all. -/
theorem renumberFrom_noop {sibs : List Node} {db : DB} {s : Nat}
    (h : ∀ i (hi : i < sibs.length), (sibs.get ⟨i, hi⟩)._sortOrder = some (((s + i : Nat) : Int) + 1)) :
    renumberFrom s sibs db = (Except.ok (), db) := by
  induction sibs generalizing s with
  | nil => rfl
  | cons x rest ih =>
      have hx : x._sortOrder = some ((s : Int) + 1) := by
        have := h 0 (by simp)
        simpa using this
      rw [renumberFrom, if_pos hx]
      apply ih
      intro i hi
      have := h (i + 1) (by simpa using Nat.succ_lt_succ hi)
      simp only [List.get_cons_succ] at this
      rw [this]
      congr 2
      omega

/-! ### Sorting and splicing helpers -/

theorem sortSO_perm (l : List Node) : (sortSO l).Perm l := List.perm_insertionSort soLE l

theorem spliceAt_perm (l : List Node) (i : Nat) (a : Node) :
    (spliceAt l i a).Perm (a :: l) := by
  unfold spliceAt
  have h := @List.perm_middle _ a (l.take i) (l.drop i)
  rw [List.take_append_drop] at h
  exact h

theorem mem_spliceAt {l : List Node} {i : Nat} {a x : Node} :
    x ∈ spliceAt l i a ↔ x = a ∨ x ∈ l := by
  rw [(spliceAt_perm l i a).mem_iff, List.mem_cons]

/-- Decode membership in `findSiblings`. -/
theorem mem_findSiblings {db : DB} {pid : Nat} {excl : Option Nat} {x : Node}
    (h : x ∈ findSiblings db pid excl) :
    x ∈ db.nodes ∧ x._parentId = some pid := by
  unfold findSiblings at h
  have h2 := (sortSO_perm _).mem_iff.mp h
  have h3 := List.mem_filter.mp h2
  refine ⟨h3.1, ?_⟩
  have := h3.2
  simp only [Bool.and_eq_true, beq_iff_eq] at this
  exact this.1

theorem findSiblings_ids_nodup {db : DB} (hdb : (db.nodes.map (fun n => n._id)).Nodup)
    (pid : Nat) (excl : Option Nat) :
    ((findSiblings db pid excl).map (fun n => n._id)).Nodup := by
  unfold findSiblings
  refine (((sortSO_perm _).map (fun (n : Node) => n._id)).nodup_iff).mpr ?_
  exact ((List.filter_sublist _).map (fun (n : Node) => n._id)).nodup hdb

theorem not_mem_findSiblings_excl {db : DB} {pid : Nat} {e : Nat} {x : Node}
    (h : x ∈ findSiblings db pid (some e)) : x._id ≠ e := by
  unfold findSiblings at h
  have h2 := (sortSO_perm _).mem_iff.mp h
  have h3 := (List.mem_filter.mp h2).2
  simp only [Bool.and_eq_true, bne_iff_ne, ne_eq] at h3
  exact h3.2

/-! ### updateSortOrder, characterized -/

/-- The spliced sibling list that `updateSortOrder` renumbers on the
insert/update path. -/
def splicedSibs (db : DB) (item : Node) (pid : Nat) : List Node :=
  spliceAt (findSiblings db pid (some item._id))
    (match item._sortOrder with
     | some so => if so - 1 > -1 then (so - 1).toNat else (findSiblings db pid (some item._id)).length
     | none => (findSiblings db pid (some item._id)).length)
    item

theorem splicedSibs_side {db : DB} {item : Node} {pid : Nat}
    (hdb : (db.nodes.map (fun n => n._id)).Nodup) (hin : item ∈ db.nodes) :
    ((splicedSibs db item pid).map (fun n => n._id)).Nodup
      ∧ ∀ x ∈ splicedSibs db item pid, x ∈ db.nodes := by
  have hperm := spliceAt_perm (findSiblings db pid (some item._id))
    (match item._sortOrder with
     | some so => if so - 1 > -1 then (so - 1).toNat else (findSiblings db pid (some item._id)).length
     | none => (findSiblings db pid (some item._id)).length) item
  constructor
  · refine ((hperm.map (fun (n : Node) => n._id)).nodup_iff).mpr ?_
    rw [List.map_cons, List.nodup_cons]
    refine ⟨?_, findSiblings_ids_nodup hdb pid (some item._id)⟩
    intro hmem
    obtain ⟨y, hy, hyid⟩ := List.mem_map.mp hmem
    exact not_mem_findSiblings_excl hy hyid
  · intro x hx
    rcases mem_spliceAt.mp hx with h | h
    · exact h ▸ hin
    · exact (mem_findSiblings h).1

/-- The insert/update path of `updateSortOrder`: splice the (re-sorted)
siblings around the item and renumber the resulting list in place. -/
theorem updateSortOrder_update_eq {item : Node} {db : DB} {pid : Nat}
    (ht1 : item._type ≠ CType.config) (ht2 : item._type ≠ CType.course)
    (hp : item._parentId = some pid)
    (hdb : (db.nodes.map (fun n => n._id)).Nodup)
    (hin : item ∈ db.nodes) :
    updateSortOrder item true db =
      (Except.ok (), { db with nodes := db.nodes.map (soPatch 0 (splicedSibs db item pid)) }) := by
  obtain ⟨hnodup, hmem⟩ := @splicedSibs_side db item pid hdb hin
  unfold updateSortOrder
  rw [ite_run, if_neg (by simp [ht1, ht2, hp])]
  rw [hp]
  show (getDB >>= _) db = _
  rw [bind_run, getDB_run]
  show renumberFrom 0 (splicedSibs db item pid) db = _
  exact renumberFrom_eq hnodup hdb hmem

/-- The deletion path of `updateSortOrder`: renumber all remaining children
of the parent. -/
theorem updateSortOrder_delete_eq {item parent : Node} {db : DB} {pid : Nat}
    (ht1 : item._type ≠ CType.config) (ht2 : item._type ≠ CType.course)
    (hp : item._parentId = some pid)
    (hdb : (db.nodes.map (fun n => n._id)).Nodup)
    (hpar : findById db pid = some parent) :
    updateSortOrder item false db =
      (Except.ok (), { db with nodes := db.nodes.map (soPatch 0 (findSiblings db parent._id none)) }) := by
  unfold updateSortOrder
  rw [ite_run, if_neg (by simp [ht1, ht2, hp])]
  rw [hp]
  show (getDB >>= _) db = _
  rw [bind_run, getDB_run]
  show (match findById db pid with
        | none => throwM Err.crash
        | some parent => renumberFrom 0 (findSiblings db parent._id none)) db = _
  rw [hpar]
  refine renumberFrom_eq ?_ hdb ?_
  · exact findSiblings_ids_nodup hdb parent._id none
  · exact fun x hx => (mem_findSiblings hx).1

theorem InPlace_of_eq {R : Node → Node → Prop} {db db' : DB} (h : db' = db)
    (hR : ∀ n, R n n) : InPlace R db db' :=
  ⟨fun n => n, by rw [h]; simp, fun n _ => hR n⟩

/-- `updateSortOrder` only rewrites `_sortOrder` fields, never ids, parents
or membership. -/
theorem updateSortOrder_inplace (item : Node) (isUp : Bool) (db : DB) :
    InPlace soOnly db ((updateSortOrder item isUp) db).2 := by
  have hren : ∀ (s : Nat) (sibs : List Node) (db0 : DB),
      InPlace soOnly db0 ((renumberFrom s sibs) db0).2 := by
    intro s sibs
    induction sibs generalizing s with
    | nil => exact fun db0 => InPlace_of_eq rfl soOnly_refl
    | cons x rest ih =>
        intro db0
        rw [renumberFrom]
        by_cases hso : x._sortOrder = some ((s : Int) + 1)
        · rw [if_pos hso]; exact ih (s + 1) db0
        · rw [if_neg hso]
          rw [bind_run]
          rcases hbu : baseUpdate x._id { _sortOrder := some ((s : Int) + 1) } db0 with ⟨r, db1⟩
          have h1 : InPlace soOnly db0 db1 := by
            have := baseUpdate_inplace x._id { _sortOrder := some ((s : Int) + 1) } db0
            rw [hbu] at this
            obtain ⟨f, hdb1, hf⟩ := this
            refine ⟨f, hdb1, fun n hn => ?_⟩
            rcases hf n hn with h | h
            · rw [h]; exact soOnly_refl n
            · rw [h]; rfl
          cases r with
          | error e => exact h1
          | ok a =>
              obtain ⟨f, hdb1, hf⟩ := h1
              obtain ⟨g, hdb2, hg⟩ := ih (s + 1) db1
              refine ⟨g ∘ f, ?_, ?_⟩
              · rw [hdb2, hdb1]; simp [List.map_map]
              · intro n hn
                refine soOnly_trans (hf n hn) (hg (f n) ?_)
                rw [hdb1]
                exact List.mem_map_of_mem f hn
  unfold updateSortOrder
  rw [ite_run]
  by_cases hc : item._type = CType.config ∨ item._type = CType.course ∨ item._parentId = none
  · rw [if_pos hc]
    exact InPlace_of_eq rfl soOnly_refl
  · rw [if_neg hc]
    cases hpid : item._parentId with
    | none => exact InPlace_of_eq rfl soOnly_refl
    | some pid =>
        show InPlace soOnly db (((getDB >>= _) : M Unit) db).2
        rw [bind_run, getDB_run]
        cases isUp with
        | true => exact hren 0 _ db
        | false =>
            show InPlace soOnly db ((match findById db pid with
              | none => throwM Err.crash
              | some parent => renumberFrom 0 (findSiblings db parent._id none)) db).2
            cases hpar : findById db pid with
            | none => exact InPlace_of_eq rfl soOnly_refl
            | some parent => exact hren 0 _ db

/-! ### updateEnabledPlugins, characterized -/

theorem dedupFirst_aux_nodup {α : Type} [DecidableEq α] (l acc : List α) (hacc : acc.Nodup) :
    (l.foldl (fun acc a => if a ∈ acc then acc else acc ++ [a]) acc).Nodup := by
  induction l generalizing acc with
  | nil => exact hacc
  | cons x rest ih =>
      simp only [List.foldl_cons]
      by_cases hx : x ∈ acc
      · rw [if_pos hx]; exact ih acc hacc
      · rw [if_neg hx]
        refine ih _ ?_
        simp [List.nodup_append, hacc, hx]

theorem dedupFirst_nodup {α : Type} [DecidableEq α] (l : List α) : (dedupFirst l).Nodup :=
  dedupFirst_aux_nodup l [] List.nodup_nil

theorem dedupFirst_aux_mem {α : Type} [DecidableEq α] (l acc : List α) (x : α) :
    x ∈ l.foldl (fun acc a => if a ∈ acc then acc else acc ++ [a]) acc ↔ x ∈ acc ∨ x ∈ l := by
  induction l generalizing acc with
  | nil => simp
  | cons y rest ih =>
      simp only [List.foldl_cons]
      by_cases hy : y ∈ acc
      · rw [if_pos hy, ih]
        constructor
        · rintro (h | h)
          · exact Or.inl h
          · exact Or.inr (List.mem_cons_of_mem y h)
        · rintro (h | h)
          · exact Or.inl h
          · rcases List.mem_cons.mp h with h | h
            · exact Or.inl (h ▸ hy)
            · exact Or.inr h
      · rw [if_neg hy, ih]
        simp only [List.mem_append, List.mem_singleton, List.mem_cons]
        tauto

theorem dedupFirst_mem {α : Type} [DecidableEq α] (l : List α) (x : α) :
    x ∈ dedupFirst l ↔ x ∈ l := by
  rw [dedupFirst, dedupFirst_aux_mem]
  simp

theorem find?_filter {α : Type} (l : List α) (p q : α → Bool) :
    (l.filter p).find? q = l.find? (fun a => p a && q a) := by
  induction l with
  | nil => rfl
  | cons x rest ih =>
      by_cases hp : p x = true
      · by_cases hq : q x = true
        · simp [List.filter_cons, hp, List.find?_cons, hq]
        · have hq2 : q x = false := by simp_all
          simp [List.filter_cons, hp, hq2, List.find?_cons, ih]
      · have hp2 : p x = false := by simp_all
        simp [List.filter_cons, hp2, List.find?_cons, ih]

theorem mapIfEmptyDelta (db : DB) (i : Nat) :
    db.nodes.map (fun m => if m._id == i then applyDelta {} m else m) = db.nodes := by
  have h : ∀ m ∈ db.nodes, (fun m => if m._id == i then applyDelta {} m else m) m = m := by
    intro m _
    by_cases hm : (m._id == i) = true
    · simp [hm, applyDelta_empty]
    · simp [hm]
  rw [List.map_congr_left h]
  exact List.map_id' db.nodes

theorem noopUpdates_snd (l : List Node) (db : DB) : ((noopUpdates l) db).2 = db := by
  induction l generalizing db with
  | nil => rfl
  | cons c rest ih =>
      show ((baseUpdate c._id {} >>= fun _ => noopUpdates rest) db).2 = db
      rw [bind_run]
      cases hf : db.nodes.find? (fun n => n._id == c._id) with
      | none =>
          rw [show baseUpdate c._id {} db = (Except.error Err.notFound, db) by
            simp [baseUpdate, hf]]
      | some n =>
          rw [baseUpdate_found hf]
          show ((noopUpdates rest) { db with nodes := db.nodes.map _ }).2 = db
          rw [mapIfEmptyDelta]
          exact ih db

theorem noopUpdates_ok {l : List Node} {db : DB} (h : ∀ c ∈ l, c ∈ db.nodes) :
    (noopUpdates l) db = (Except.ok (), db) := by
  induction l with
  | nil => rfl
  | cons c rest ih =>
      show (baseUpdate c._id {} >>= fun _ => noopUpdates rest) db = _
      rw [bind_run]
      have hc : c ∈ db.nodes := h c (List.mem_cons_self c rest)
      have hsome : (db.nodes.find? (fun n => n._id == c._id)).isSome := by
        rw [List.find?_isSome]
        exact ⟨c, hc, by simp⟩
      cases hf : db.nodes.find? (fun n => n._id == c._id) with
      | none => rw [hf] at hsome; cases hsome
      | some n =>
          rw [baseUpdate_found hf]
          show (noopUpdates rest) { db with nodes := db.nodes.map _ } = _
          rw [mapIfEmptyDelta]
          exact ih (fun x hx => h x (List.mem_cons_of_mem c hx))

theorem updateEnabledPlugins_noConfig {db : DB} {cid : Option Nat} {fu : Bool}
    (h : (courseItemsOf db cid).find? (fun c => c._type == CType.config) = none) :
    updateEnabledPlugins cid fu db = (Except.ok (), db) := by
  unfold updateEnabledPlugins
  rw [h]

theorem updateEnabledPlugins_short {db : DB} {cid : Option Nat} {config : Node}
    (hcfg : (courseItemsOf db cid).find? (fun c => c._type == CType.config) = some config)
    (hcond : (config._enabledPlugins.length == (enabledCandidate db cid config).length
        && config._enabledPlugins.all (fun p => (enabledCandidate db cid config).contains (some p)))
        = true) :
    updateEnabledPlugins cid false db = (Except.ok (), db) := by
  unfold updateEnabledPlugins
  rw [hcfg]
  show (if (!false && config._enabledPlugins.length == (enabledCandidate db cid config).length
      && config._enabledPlugins.all (fun p => (enabledCandidate db cid config).contains (some p)))
      = true
    then ((Except.ok (), db) : Except Err Unit × DB)
    else updateEnabledPluginsWrite cid false config db) = (Except.ok (), db)
  rw [if_pos (by simp only [Bool.not_false, Bool.true_and]; exact hcond)]

/-- Decode the `find?` of `updateEnabledPlugins`: the config it locates is
the first store document matching the combined course/config query, is a
member of the store, belongs to the course and has type config. -/
theorem configOf_facts {db : DB} {cid : Option Nat} {config : Node}
    (hcfg : (courseItemsOf db cid).find? (fun c => c._type == CType.config) = some config) :
    db.nodes.find? (fun n => n._courseId == cid && n._type == CType.config) = some config
      ∧ config ∈ db.nodes ∧ config._courseId = cid ∧ config._type = CType.config := by
  have hq : db.nodes.find? (fun n => n._courseId == cid && n._type == CType.config)
      = some config := by
    rw [← find?_filter db.nodes (fun n => n._courseId == cid) (fun n => n._type == CType.config)]
    exact hcfg
  have hmem : config ∈ db.nodes := List.mem_of_find?_eq_some hq
  have hp := List.find?_some hq
  simp only [Bool.and_eq_true, beq_iff_eq] at hp
  exact ⟨hq, hmem, hp.1, hp.2⟩

/-- The write phase always succeeds and its only store effect is replacing
`_enabledPlugins` on the documents carrying the config's id. -/
theorem updateEnabledPluginsWrite_eq {db : DB} {cid : Option Nat} {config : Node} {fu : Bool}
    (hcfg : (courseItemsOf db cid).find? (fun c => c._type == CType.config) = some config) :
    updateEnabledPluginsWrite cid fu config db =
      (Except.ok (),
       { db with nodes := db.nodes.map (fun m =>
           if m._id == config._id then
             applyDelta { _enabledPlugins := some ((enabledCandidate db cid config).filterMap id) } m
           else m) }) := by
  obtain ⟨hq, hmem, _, _⟩ := configOf_facts hcfg
  unfold updateEnabledPluginsWrite
  rw [show queryUpdateConfig cid
      { _enabledPlugins := some ((enabledCandidate db cid config).filterMap id) } db
      = baseUpdate config._id
        { _enabledPlugins := some ((enabledCandidate db cid config).filterMap id) } db by
    unfold queryUpdateConfig
    rw [hq]]
  have hsome : (db.nodes.find? (fun n => n._id == config._id)).isSome := by
    rw [List.find?_isSome]
    exact ⟨config, hmem, by simp⟩
  cases hf : db.nodes.find? (fun n => n._id == config._id) with
  | none => rw [hf] at hsome; cases hsome
  | some n0 =>
      rw [baseUpdate_found hf]
      set db1 : DB := { db with nodes := db.nodes.map (fun m =>
        if m._id == config._id then
          applyDelta { _enabledPlugins := some ((enabledCandidate db cid config).filterMap id) } m
        else m) } with hdb1
      show (if (enabledTypes db cid fu config).length > 0 then
          noopUpdates (db1.nodes.filter (fun n =>
            n._courseId == cid && (enabledTypes db cid fu config).contains (ctypeName n._type))) db1
        else (Except.ok (), db1)) = (Except.ok (), db1)
      by_cases ht : (enabledTypes db cid fu config).length > 0
      · rw [if_pos ht]
        apply noopUpdates_ok
        intro c hc
        exact List.mem_of_mem_filter hc
      · rw [if_neg ht]

/-- `updateEnabledPlugins` always succeeds and only ever rewrites
`_enabledPlugins` fields. -/
theorem updateEnabledPlugins_config_run {db : DB} {cid : Option Nat} {fu : Bool} {config : Node}
    (hcfg : (courseItemsOf db cid).find? (fun c => c._type == CType.config) = some config) :
    updateEnabledPlugins cid fu db = updateEnabledPluginsCore cid fu config db := by
  unfold updateEnabledPlugins
  rw [hcfg]

theorem updateEnabledPlugins_run (cid : Option Nat) (fu : Bool) (db : DB) :
    ∃ db', updateEnabledPlugins cid fu db = (Except.ok (), db') ∧ InPlace epOnly db db' := by
  cases hcfg : (courseItemsOf db cid).find? (fun c => c._type == CType.config) with
  | none => exact ⟨db, updateEnabledPlugins_noConfig hcfg, InPlace_of_eq rfl epOnly_refl⟩
  | some config =>
      rw [updateEnabledPlugins_config_run hcfg]
      unfold updateEnabledPluginsCore
      by_cases hcond : (!fu && config._enabledPlugins.length == (enabledCandidate db cid config).length
          && config._enabledPlugins.all (fun p => (enabledCandidate db cid config).contains (some p)))
          = true
      · rw [if_pos hcond]
        exact ⟨db, rfl, InPlace_of_eq rfl epOnly_refl⟩
      · rw [if_neg hcond]
        rw [updateEnabledPluginsWrite_eq hcfg]
        refine ⟨_, rfl, ?_⟩
        refine ⟨_, rfl, ?_⟩
        intro n _
        by_cases hn : (n._id == config._id) = true
        · rw [if_pos hn]; rfl
        · rw [if_neg hn]; exact epOnly_refl n

/-! ### The write-footprint (`Safe`) layer -/

/-- A computation is safe when, on a well-formed store, it preserves
well-formedness and only appends nodes or rewrites
`_sortOrder`/`_enabledPlugins` on existing ones. -/
def Safe {α : Type} (m : M α) : Prop :=
  ∀ db, WF db → Ext db (m db).2 ∧ WF (m db).2

theorem WF_of_InPlace {R : Node → Node → Prop} (hid : ∀ a b, R a b → b._id = a._id)
    {db db' : DB} (h : InPlace R db db') (hwf : WF db) : WF db' := by
  obtain ⟨f, hdb, hf⟩ := h
  subst hdb
  constructor
  · show ((db.nodes.map f).map (fun n => n._id)).Nodup
    rw [List.map_map]
    have hcg : db.nodes.map ((fun n => n._id) ∘ f) = db.nodes.map (fun n => n._id) :=
      List.map_congr_left (fun n hn => hid n (f n) (hf n hn))
    rw [hcg]
    exact hwf.1
  · intro n hn
    obtain ⟨m, hm, rfl⟩ := List.mem_map.mp hn
    show (f m)._id < db.nextId
    rw [hid m (f m) (hf m hm)]
    exact hwf.2 m hm

theorem soOnly_id {a b : Node} (h : soOnly a b) : b._id = a._id := soep_id (soOnly_soep h)

theorem epOnly_id {a b : Node} (h : epOnly a b) : b._id = a._id := soep_id (epOnly_soep h)

theorem updateSortOrder_safe (item : Node) (isUp : Bool) : Safe (updateSortOrder item isUp) := by
  intro db hwf
  have h := updateSortOrder_inplace item isUp db
  exact ⟨InPlace_soep_Ext (fun a b hh => soOnly_soep hh) h,
    WF_of_InPlace (fun a b hh => soOnly_id hh) h hwf⟩

theorem updateEnabledPlugins_safe (cid : Option Nat) (fu : Bool) :
    Safe (updateEnabledPlugins cid fu) := by
  intro db hwf
  obtain ⟨db', heq, hip⟩ := updateEnabledPlugins_run cid fu db
  rw [heq]
  exact ⟨InPlace_soep_Ext (fun a b hh => epOnly_soep hh) hip,
    WF_of_InPlace (fun a b hh => epOnly_id hh) hip hwf⟩

theorem baseUpdate_wf (i : Nat) (d : Delta) (db : DB) (hwf : WF db) :
    WF ((baseUpdate i d) db).2 := by
  refine WF_of_InPlace ?_ (baseUpdate_inplace i d db) hwf
  intro a b h
  rcases h with h | h
  · rw [h]
  · rw [h, applyDelta_id]

theorem update_wf (i : Nat) (d : Delta) (db : DB) (hwf : WF db) : WF ((update i d) db).2 := by
  have hwf1 : ∀ r1 db1, baseUpdate i d db = (r1, db1) → WF db1 := by
    intro r1 db1 heq
    have := baseUpdate_wf i d db hwf
    rw [heq] at this
    exact this
  unfold update
  split
  next e db1 heq => exact hwf1 _ _ heq
  next doc db1 heq =>
    have hw1 := hwf1 _ _ heq
    have hwf2 : ∀ r2 db2, updateSortOrder doc true db1 = (r2, db2) → WF db2 := by
      intro r2 db2 heq2
      have := (updateSortOrder_safe doc true db1 hw1).2
      rw [heq2] at this
      exact this
    split
    next e db2 heq2 => exact hwf2 _ _ heq2
    next a db2 heq2 =>
      have hw2 := hwf2 _ _ heq2
      have hwf3 : ∀ r3 db3,
          updateEnabledPlugins doc._courseId d._enabledPlugins.isSome db2 = (r3, db3) → WF db3 := by
        intro r3 db3 heq3
        have := (updateEnabledPlugins_safe doc._courseId d._enabledPlugins.isSome db2 hw2).2
        rw [heq3] at this
        exact this
      split
      next e db3 heq3 => exact hwf3 _ _ heq3
      next a db3 heq3 => exact hwf3 _ _ heq3

/-- Every `updateSortOrder` outcome is an `Ext` step. -/
theorem updateSortOrder_ext_of_eq {doc : Node} {isUp : Bool} {db1 db2 : DB} {r2 : Except Err Unit}
    (heq : updateSortOrder doc isUp db1 = (r2, db2)) : Ext db1 db2 := by
  have h := InPlace_soep_Ext (fun a b hh => soOnly_soep hh) (updateSortOrder_inplace doc isUp db1)
  rw [heq] at h
  exact h

/-- Every `updateEnabledPlugins` outcome is an `Ext` step. -/
theorem updateEnabledPlugins_ext_of_eq {cid : Option Nat} {fu : Bool} {db2 db3 : DB}
    {r3 : Except Err Unit} (heq : updateEnabledPlugins cid fu db2 = (r3, db3)) : Ext db2 db3 := by
  obtain ⟨db', heq2, hip⟩ := updateEnabledPlugins_run cid fu db2
  rw [heq2] at heq
  injection heq with hfst hsnd
  rw [← hsnd]
  exact InPlace_soep_Ext (fun a b hh => epOnly_soep hh) hip

/-- An update aimed at an id at or above the original id supply leaves all
original nodes inside the `Ext` footprint (used for the course back-patch
on a freshly inserted document). -/
theorem update_ext_high {i : Nat} {d : Delta} {db0 db : DB}
    (hext : Ext db0 db) (hwf0 : ∀ n ∈ db0.nodes, n._id < db0.nextId)
    (hi : db0.nextId ≤ i) : Ext db0 ((update i d) db).2 := by
  have hbu : ∀ r1 db1, baseUpdate i d db = (r1, db1) → Ext db0 db1 := by
    intro r1 db1 heq
    cases hf : db.nodes.find? (fun n => n._id == i) with
    | none =>
        rw [show baseUpdate i d db = (Except.error Err.notFound, db) from by
          simp [baseUpdate, hf]] at heq
        injection heq with hfst hsnd
        rw [← hsnd]
        exact hext
    | some n =>
        rw [baseUpdate_found hf] at heq
        injection heq with hfst hsnd
        rw [← hsnd]
        obtain ⟨f, tail, hnodes, hsoep, hle, hfa, hrg⟩ := hext
        refine ⟨f, tail.map (fun m => if m._id == i then applyDelta d m else m), ?_, hsoep,
          hle, hfa, hrg⟩
        show db.nodes.map _ = _
        rw [hnodes, List.map_append, List.map_map]
        congr 1
        apply List.map_congr_left
        intro n0 hn0
        show (if (f n0)._id == i then applyDelta d (f n0) else f n0) = f n0
        have hlt : (f n0)._id < db0.nextId := by
          rw [soep_id (hsoep n0 hn0)]
          exact hwf0 n0 hn0
        rw [if_neg (by simp only [beq_iff_eq]; omega)]
  unfold update
  split
  next e db1 heq => exact hbu _ _ heq
  next doc db1 heq =>
    have he1 := hbu _ _ heq
    split
    next e db2 heq2 => exact Ext_trans he1 (updateSortOrder_ext_of_eq heq2)
    next a db2 heq2 =>
      have he2 := Ext_trans he1 (updateSortOrder_ext_of_eq heq2)
      split
      next e db3 heq3 => exact Ext_trans he2 (updateEnabledPlugins_ext_of_eq heq3)
      next a db3 heq3 => exact Ext_trans he2 (updateEnabledPlugins_ext_of_eq heq3)

/-- `insert` is safe: it only appends the new document and rewrites
`_sortOrder`/`_enabledPlugins` (and the fresh document's own fields). -/
theorem insert_safe (data : Node) (opts : Opts) : Safe (insert data opts) := by
  intro db hwf
  unfold insert
  by_cases hguard : data._type ≠ CType.course ∧ data._type ≠ CType.config
      ∧ (data._parentId.bind (findById db)).isNone
  · rw [if_pos hguard]
    exact ⟨Ext_refl db, hwf⟩
  · rw [if_neg hguard]
    split
    next e db1 heq =>
      by_cases hfail : db.failAt = some db.nextId
      · rw [baseInsert_fail hfail] at heq
        injection heq with hfst hsnd
        rw [← hsnd]
        exact ⟨Ext_refl db, hwf⟩
      · rw [baseInsert_ok hfail] at heq
        cases heq
    next doc db1 heq =>
      by_cases hfail : db.failAt = some db.nextId
      · rw [baseInsert_fail hfail] at heq
        cases heq
      · rw [baseInsert_ok hfail] at heq
        injection heq with hfst hsnd
        have hdoc : doc = { data with _id := db.nextId } := by
          injection hfst with h
          exact h.symm
        have hdb1 := hsnd.symm
        have hdocid : doc._id = db.nextId := by rw [hdoc]
        have hext1 : Ext db db1 := by
          rw [hdb1]
          refine ⟨fun n => n, [{ data with _id := db.nextId }], ?_, fun n _ => soep_refl n,
            Nat.le_succ _, rfl, rfl⟩
          simp
        have hwf1 : WF db1 := by
          rw [hdb1]
          constructor
          · show ((db.nodes ++ [{ data with _id := db.nextId }]).map (fun (n : Node) => n._id)).Nodup
            rw [List.map_append, List.nodup_append]
            refine ⟨hwf.1, by simp, ?_⟩
            intro a ha hb
            simp only [List.map_cons, List.map_nil, List.mem_singleton] at hb
            obtain ⟨m, hm, hma⟩ := List.mem_map.mp ha
            have := hwf.2 m hm
            omega
          · intro n hn
            rcases List.mem_append.mp hn with h | h
            · have := hwf.2 n h
              show n._id < db.nextId + 1
              omega
            · simp only [List.mem_singleton] at h
              rw [h]
              show db.nextId < db.nextId + 1
              omega
        by_cases hcourse : data._type = CType.course
        · rw [if_pos hcourse]
          refine ⟨update_ext_high hext1 hwf.2 (by omega), ?_⟩
          exact update_wf doc._id { _courseId := some doc._id } db1 hwf1
        · rw [if_neg hcourse]
          have hso : ∀ r2 db2,
              (if opts.updateSortOrder then updateSortOrder doc true else pure ()) db1 = (r2, db2) →
              Ext db1 db2 ∧ WF db2 := by
            intro r2 db2 heq2
            by_cases ho : opts.updateSortOrder
            · rw [if_pos ho] at heq2
              have h1 := updateSortOrder_ext_of_eq heq2
              have h2 := (updateSortOrder_safe doc true db1 hwf1).2
              rw [heq2] at h2
              exact ⟨h1, h2⟩
            · rw [if_neg ho, pure_run] at heq2
              injection heq2 with hfst2 hsnd2
              rw [← hsnd2]
              exact ⟨Ext_refl db1, hwf1⟩
          split
          next e db2 heq2 =>
            have h2 := hso _ _ heq2
            exact ⟨Ext_trans hext1 h2.1, h2.2⟩
          next a db2 heq2 =>
            have h2 := hso _ _ heq2
            have hep : ∀ r3 db3,
                (if opts.updateEnabledPlugins then updateEnabledPlugins doc._courseId false
                 else pure ()) db2 = (r3, db3) → Ext db2 db3 ∧ WF db3 := by
              intro r3 db3 heq3
              by_cases ho : opts.updateEnabledPlugins
              · rw [if_pos ho] at heq3
                have h31 := updateEnabledPlugins_ext_of_eq heq3
                have h32 := (updateEnabledPlugins_safe doc._courseId false db2 h2.2).2
                rw [heq3] at h32
                exact ⟨h31, h32⟩
              · rw [if_neg ho, pure_run] at heq3
                injection heq3 with hfst3 hsnd3
                rw [← hsnd3]
                exact ⟨Ext_refl db2, h2.2⟩
            split
            next e db3 heq3 =>
              have h3 := hep _ _ heq3
              exact ⟨Ext_trans (Ext_trans hext1 h2.1) h3.1, h3.2⟩
            next a db3 heq3 =>
              have h3 := hep _ _ heq3
              exact ⟨Ext_trans (Ext_trans hext1 h2.1) h3.1, h3.2⟩

theorem Safe_pure {α : Type} (a : α) : Safe (pure a : M α) :=
  fun db hwf => ⟨Ext_refl db, hwf⟩

theorem Safe_throwM {α : Type} (e : Err) : Safe (throwM e : M α) :=
  fun db hwf => ⟨Ext_refl db, hwf⟩

theorem Safe_getDB : Safe getDB :=
  fun db hwf => ⟨Ext_refl db, hwf⟩

theorem Safe_liftE {α : Type} (x : Except Err α) : Safe (liftE x) := by
  cases x with
  | ok a => exact Safe_pure a
  | error e => exact Safe_throwM e

theorem Safe_bind {α β : Type} {x : M α} {f : α → M β}
    (hx : Safe x) (hf : ∀ a, Safe (f a)) : Safe (x >>= f) := by
  intro db hwf
  rw [bind_run]
  rcases hx2 : x db with ⟨r, db1⟩
  have h1 := hx db hwf
  rw [hx2] at h1
  cases r with
  | error e => exact h1
  | ok a =>
      have h2 := hf a db1 h1.2
      exact ⟨Ext_trans h1.1 h2.1, h2.2⟩

theorem Safe_of_eq {α : Type} {x y : M α} (h : ∀ db, x db = y db) (hy : Safe y) : Safe x := by
  intro db hwf
  rw [h db]
  exact hy db hwf

theorem insertRecLoop_cons_none {parent : Node} (h : parent._courseId = none)
    (createdBy : String) (opts : Opts) (cd : Option Delta) (t : CType) (rest : List CType)
    (db : DB) :
    insertRecLoop createdBy opts parent cd (t :: rest) db = (Except.error Err.crash, db) := by
  unfold insertRecLoop
  rw [h]

theorem insertRecLoop_cons_some {parent : Node} {cid : Nat} (h : parent._courseId = some cid)
    (createdBy : String) (opts : Opts) (cd : Option Delta) (t : CType) (rest : List CType)
    (db : DB) :
    insertRecLoop createdBy opts parent cd (t :: rest) db
      = match insert (recData t createdBy parent cid cd) opts db with
        | (Except.error e, db1) => (Except.error e, db1)
        | (Except.ok item, db1) =>
            match insertRecLoop createdBy opts (if t ≠ CType.config then item else parent)
                none rest db1 with
            | (Except.error e, db2) => (Except.error e, db2)
            | (Except.ok items, db2) => (Except.ok (item :: items), db2) := by
  conv_lhs => rw [insertRecLoop]
  simp only [h]

theorem insertRecLoop_safe (createdBy : String) (opts : Opts) :
    ∀ (ts : List CType) (parent : Node) (cd : Option Delta),
      Safe (insertRecLoop createdBy opts parent cd ts) := by
  intro ts
  induction ts with
  | nil => exact fun parent cd => Safe_pure []
  | cons t rest ih =>
      intro parent cd db hwf
      cases hcid : parent._courseId with
      | none =>
          rw [insertRecLoop_cons_none hcid]
          exact ⟨Ext_refl db, hwf⟩
      | some cid =>
          rw [insertRecLoop_cons_some hcid]
          split
          next e db1 heq =>
            have h := insert_safe (recData t createdBy parent cid cd) opts db hwf
            rw [heq] at h
            exact h
          next item db1 heq =>
            have h1 := insert_safe (recData t createdBy parent cid cd) opts db hwf
            rw [heq] at h1
            split
            next e db2 heq2 =>
              have h2 := ih (if t ≠ CType.config then item else parent) none db1 h1.2
              rw [heq2] at h2
              exact ⟨Ext_trans h1.1 h2.1, h2.2⟩
            next items db2 heq2 =>
              have h2 := ih (if t ≠ CType.config then item else parent) none db1 h1.2
              rw [heq2] at h2
              exact ⟨Ext_trans h1.1 h2.1, h2.2⟩

theorem insertRecursive_none_run (createdBy : String) (cd : Option Delta) (isMenu : Bool)
    (cts : Option (List CType)) (opts : Opts) (db : DB) :
    insertRecursive none createdBy cd isMenu cts opts db
      = match insert (courseSeedData createdBy cd) {} db with
        | (Except.error e, db1) => (Except.error e, db1)
        | (Except.ok parent, db1) =>
            match insertRecLoop createdBy opts parent none
                [CType.config, CType.page, CType.article, CType.block, CType.component] db1 with
            | (Except.error e, db2) => (Except.error e, db2)
            | (Except.ok items, db2) => (Except.ok (parent :: items), db2) := rfl

theorem insertRecursive_some_run (rid : Nat) (createdBy : String) (cd : Option Delta)
    (isMenu : Bool) (cts : Option (List CType)) (opts : Opts) (db : DB) :
    insertRecursive (some rid) createdBy cd isMenu cts opts db
      = match findById db rid with
        | none => (Except.error Err.crash, db)
        | some parent =>
            insertRecLoop createdBy opts parent cd (childTypesOf parent isMenu cts) db := rfl

theorem insertRecursive_safe (rootId : Option Nat) (createdBy : String)
    (customData : Option Delta) (isMenu : Bool) (childTypes0 : Option (List CType)) (opts : Opts) :
    Safe (insertRecursive rootId createdBy customData isMenu childTypes0 opts) := by
  intro db hwf
  cases rootId with
  | none =>
      rw [insertRecursive_none_run]
      split
      next e db1 heq =>
        have h := insert_safe (courseSeedData createdBy customData) {} db hwf
        rw [heq] at h
        exact h
      next parent db1 heq =>
        have h1 := insert_safe (courseSeedData createdBy customData) {} db hwf
        rw [heq] at h1
        split
        next e db2 heq2 =>
          have h2 := insertRecLoop_safe createdBy opts
            [CType.config, CType.page, CType.article, CType.block, CType.component]
            parent none db1 h1.2
          rw [heq2] at h2
          exact ⟨Ext_trans h1.1 h2.1, h2.2⟩
        next items db2 heq2 =>
          have h2 := insertRecLoop_safe createdBy opts
            [CType.config, CType.page, CType.article, CType.block, CType.component]
            parent none db1 h1.2
          rw [heq2] at h2
          exact ⟨Ext_trans h1.1 h2.1, h2.2⟩
  | some rid =>
      rw [insertRecursive_some_run]
      cases hfind : findById db rid with
      | none => exact ⟨Ext_refl db, hwf⟩
      | some parent =>
          exact insertRecLoop_safe createdBy opts (childTypesOf parent isMenu childTypes0)
            parent customData db hwf

theorem constructToType_safe (node : Node) (t : CType) (userId : String) (opts : Opts) :
    Safe (constructToType node t userId opts) := by
  intro db hwf
  exact insertRecursive_safe (some node._id) userId none false _ opts db hwf

theorem append_safe (parent child : Node) (opts : Opts) :
    Safe (append parent child false opts) := by
  unfold append
  rw [if_neg (by simp)]
  exact insert_safe _ opts

theorem finishAppendToBlock_safe (block comp : Node) (opts : Opts) :
    Safe (finishAppendToBlock block comp false opts) := by
  unfold finishAppendToBlock
  rw [if_neg (by simp)]
  exact append_safe block comp opts

theorem appendToBlock_safe (block comp : Node) (userId : String) (opts : Opts) :
    Safe (appendToBlock block comp userId false opts) := by
  intro db hwf
  unfold appendToBlock
  by_cases h1 : ((childrenOf db block._id).find? (fun c => c._layout == some Layout.left)).isSome
      ∧ ((childrenOf db block._id).find? (fun c => c._layout == some Layout.right)).isNone
  · rw [if_pos h1]
    exact finishAppendToBlock_safe _ _ opts db hwf
  · rw [if_neg h1]
    by_cases h2 : ((childrenOf db block._id).find? (fun c => c._layout == some Layout.left)).isNone
        ∧ ((childrenOf db block._id).find? (fun c => c._layout == some Layout.right)).isSome
    · rw [if_pos h2]
      exact finishAppendToBlock_safe _ _ opts db hwf
    · rw [if_neg h2]
      by_cases h3 : (childrenOf db block._id).length > 0
      · rw [if_pos h3]
        split
        next e db1 heq =>
          have h := insertRecursive_safe block._parentId userId
            (some { _sortOrder := soPlus block._sortOrder }) false (some [CType.block]) opts db hwf
          rw [heq] at h
          exact h
        next items db1 heq =>
          have h4 := insertRecursive_safe block._parentId userId
            (some { _sortOrder := soPlus block._sortOrder }) false (some [CType.block]) opts db hwf
          rw [heq] at h4
          cases hh : items.head? with
          | none => exact h4
          | some newBlock =>
              have h5 := finishAppendToBlock_safe newBlock comp opts db1 h4.2
              exact ⟨Ext_trans h4.1 h5.1, h5.2⟩
      · rw [if_neg h3]
        exact finishAppendToBlock_safe _ _ opts db hwf

theorem cloneIntoNode_safe (node : Node) (rt sourceType : CType) (proposed : Node)
    (userId : String) (opts : Opts) :
    Safe (cloneIntoNode node rt sourceType proposed userId false opts) := by
  intro db hwf
  unfold cloneIntoNode
  by_cases h1 : node._type ≠ rt
  · rw [if_pos h1]
    rw [bind_run]
    rcases hc : constructToType node rt userId opts db with ⟨r, db1⟩
    have h2 := constructToType_safe node rt userId opts db hwf
    rw [hc] at h2
    cases r with
    | error e => exact h2
    | ok built =>
        show Ext db ((match built.getLast? with
            | none => throwM Err.crash
            | some node2 => append node2 proposed false opts) db1).2
          ∧ WF ((match built.getLast? with
            | none => throwM Err.crash
            | some node2 => append node2 proposed false opts) db1).2
        cases hl : built.getLast? with
        | none => exact h2
        | some node2 =>
            have h3 := append_safe node2 proposed opts db1 h2.2
            exact ⟨Ext_trans h2.1 h3.1, h3.2⟩
  · rw [if_neg h1]
    by_cases h4 : sourceType = CType.component
    · rw [if_pos h4]
      exact appendToBlock_safe node proposed userId opts db hwf
    · rw [if_neg h4]
      exact append_safe node proposed opts db hwf

theorem cloneChildren_safe {cl : Nat → M Node} (hcl : ∀ cid, Safe (cl cid)) :
    ∀ cs, Safe (cloneChildren cl cs) := by
  intro cs
  induction cs with
  | nil =>
      rw [cloneChildren]
      exact Safe_pure ()
  | cons c rest ih =>
      rw [cloneChildren]
      exact Safe_bind (hcl c._id) (fun _ => ih)

theorem cloneSafeAux : ∀ (fuel : Nat) (userId : String) (id : Nat) (parentId : Option Nat)
    (customData globalData : Delta) (opts : Opts),
    Safe (clone fuel userId id parentId customData globalData false opts) := by
  intro fuel
  induction fuel with
  | zero =>
      intro userId id parentId customData globalData opts
      rw [clone]
      exact Safe_throwM Err.fuelOut
  | succ fuel ihf =>
      intro userId id parentId customData globalData opts
      have htail : ∀ y : Node,
          Safe (if false = true then (pure y : M Node)
            else do
              let db2 ← getDB
              cloneChildren
                (fun cid => clone fuel userId cid (some y._id) {} globalData false opts)
                ((childrenOf db2 id).filter (fun i => i._id != y._id))
              pure y) := by
        intro y
        split
        · exact Safe_pure y
        · refine Safe_bind Safe_getDB ?_
          intro db2
          dsimp only
          exact Safe_bind
            (cloneChildren_safe (fun cid => ihf userId cid (some y._id) {} globalData opts) _)
            (fun _ => Safe_pure _)
      rw [clone]
      refine Safe_bind Safe_getDB ?_
      intro db0
      dsimp only
      split
      · exact Safe_throwM Err.notFound
      · split
        · exact Safe_throwM Err.invalidParent
        · split
          · split
            · split
              · exact Safe_bind (appendToBlock_safe _ _ _ _) htail
              · exact Safe_bind (append_safe _ _ _) htail
            · split
              · split
                · exact Safe_bind (Safe_throwM Err.crash) htail
                · split
                  · split
                    · exact Safe_bind (Safe_throwM Err.crash) htail
                    · refine Safe_bind (insertRecursive_safe _ _ _ _ _ _) ?_
                      intro items
                      dsimp only
                      split
                      · exact Safe_bind (Safe_throwM Err.crash) htail
                      · exact Safe_bind (cloneIntoNode_safe _ _ _ _ _ _) htail
                  · refine Safe_bind Safe_getDB ?_
                    intro dbx
                    dsimp only
                    refine Safe_bind (Safe_liftE _) ?_
                    intro node
                    exact Safe_bind (cloneIntoNode_safe _ _ _ _ _ _) htail
              · split
                · exact Safe_bind (Safe_throwM Err.crash) htail
                · refine Safe_bind Safe_getDB ?_
                  intro dbx
                  dsimp only
                  refine Safe_bind (Safe_liftE _) ?_
                  intro anc
                  refine Safe_bind (Safe_liftE _) ?_
                  intro node
                  split
                  · exact Safe_bind (appendToBlock_safe _ _ _ _) htail
                  · exact Safe_bind (append_safe _ _ _) htail
          · exact Safe_bind (insert_safe _ _) htail

/-! ### Field preservation through the update pipeline -/

theorem soOnly_parentId {a b : Node} (h : soOnly a b) : b._parentId = a._parentId := by
  rw [h]

theorem soOnly_courseId {a b : Node} (h : soOnly a b) : b._courseId = a._courseId := by
  rw [h]

theorem epOnly_parentId {a b : Node} (h : epOnly a b) : b._parentId = a._parentId := by
  rw [h]

theorem epOnly_courseId {a b : Node} (h : epOnly a b) : b._courseId = a._courseId := by
  rw [h]

theorem epOnly_sortOrder {a b : Node} (h : epOnly a b) : b._sortOrder = a._sortOrder := by
  rw [h]

theorem InPlace_point {R : Node → Node → Prop} {db db' : DB} (h : InPlace R db db')
    {n : Node} (hn : n ∈ db.nodes) : ∃ n' ∈ db'.nodes, R n n' := by
  obtain ⟨f, hdb, hf⟩ := h
  exact ⟨f n, by rw [hdb]; exact List.mem_map_of_mem f hn, hf n hn⟩

theorem applyDelta_courseId_none {d : Delta} (hd : d._courseId = none) (n : Node) :
    (applyDelta d n)._courseId = n._courseId := by
  simp [applyDelta, hd]

theorem applyDelta_parentId_some {d : Delta} {p : Nat} (hd : d._parentId = some p) (n : Node) :
    (applyDelta d n)._parentId = some p := by
  simp [applyDelta, hd]

theorem applyDelta_sortOrder_some {d : Delta} {s : Int} (hd : d._sortOrder = some s) (n : Node) :
    (applyDelta d n)._sortOrder = some s := by
  simp [applyDelta, hd]

theorem baseUpdate_ok_inv {i : Nat} {d : Delta} {db db1 : DB} {doc : Node}
    (h : baseUpdate i d db = (Except.ok doc, db1)) :
    ∃ orig, db.nodes.find? (fun n => n._id == i) = some orig ∧ orig._id = i
      ∧ doc = applyDelta d orig
      ∧ db1 = { db with nodes := db.nodes.map (fun m => if m._id == i then applyDelta d m else m) } := by
  unfold baseUpdate at h
  cases hf : db.nodes.find? (fun n => n._id == i) with
  | none =>
      rw [hf] at h
      cases h
  | some orig =>
      rw [hf] at h
      injection h with hfst hsnd
      injection hfst with hdoc
      have hid : orig._id = i := by
        have := List.find?_some hf
        simpa using this
      exact ⟨orig, rfl, hid, hdoc.symm, hsnd.symm⟩

/-- The pointwise facts about one `update` call used by the claims: every
store document keeps its `_courseId` (the delta carries none), and on success
the returned document is the shallow merge into the target, whose written
`_parentId` survives the sort-order and plugin maintainers. -/
theorem update_facts (i : Nat) (d : Delta) (db : DB) (hd : d._courseId = none) :
    (∀ n ∈ db.nodes, ∃ n' ∈ ((update i d) db).2.nodes, n'._id = n._id ∧ n'._courseId = n._courseId)
    ∧ (∀ doc db', update i d db = (Except.ok doc, db') →
        (∃ orig, db.nodes.find? (fun n => n._id == i) = some orig ∧ doc = applyDelta d orig)
        ∧ ∃ n' ∈ db'.nodes, n'._id = i ∧ n'._parentId = doc._parentId) := by
  have hstep1 : ∀ n ∈ db.nodes, ∃ n' ∈ ((baseUpdate i d) db).2.nodes,
      n'._id = n._id ∧ n'._courseId = n._courseId := by
    intro n hn
    obtain ⟨n', hn', hr⟩ := InPlace_point (baseUpdate_inplace i d db) hn
    rcases hr with h | h
    · exact ⟨n', hn', by rw [h], by rw [h]⟩
    · exact ⟨n', hn', by rw [h, applyDelta_id], by rw [h, applyDelta_courseId_none hd]⟩
  have hso : ∀ (doc : Node) (isUp : Bool) (db1 : DB) (n : Node), n ∈ db1.nodes →
      ∃ n' ∈ ((updateSortOrder doc isUp) db1).2.nodes,
        n'._id = n._id ∧ n'._courseId = n._courseId ∧ n'._parentId = n._parentId := by
    intro doc isUp db1 n hn
    obtain ⟨n', hn', hr⟩ := InPlace_point (updateSortOrder_inplace doc isUp db1) hn
    exact ⟨n', hn', soOnly_id hr, soOnly_courseId hr, soOnly_parentId hr⟩
  have hep : ∀ (cid : Option Nat) (fu : Bool) (db2 : DB) (n : Node), n ∈ db2.nodes →
      ∃ n' ∈ ((updateEnabledPlugins cid fu) db2).2.nodes,
        n'._id = n._id ∧ n'._courseId = n._courseId ∧ n'._parentId = n._parentId := by
    intro cid fu db2 n hn
    obtain ⟨db3, heq, hip⟩ := updateEnabledPlugins_run cid fu db2
    obtain ⟨n', hn', hr⟩ := InPlace_point hip hn
    rw [heq]
    exact ⟨n', hn', epOnly_id hr, epOnly_courseId hr, epOnly_parentId hr⟩
  constructor
  · intro n hn
    unfold update
    split
    next e db1 heq =>
      obtain ⟨n1, hn1, hid1, hc1⟩ := hstep1 n hn
      rw [heq] at hn1
      exact ⟨n1, hn1, hid1, hc1⟩
    next doc db1 heq =>
      obtain ⟨n1, hn1, hid1, hc1⟩ := hstep1 n hn
      rw [heq] at hn1
      split
      next e db2 heq2 =>
        obtain ⟨n2, hn2, hid2, hc2, _⟩ := hso doc true db1 n1 hn1
        rw [heq2] at hn2
        exact ⟨n2, hn2, hid2.trans hid1, hc2.trans hc1⟩
      next a db2 heq2 =>
        obtain ⟨n2, hn2, hid2, hc2, _⟩ := hso doc true db1 n1 hn1
        rw [heq2] at hn2
        split
        next e db3 heq3 =>
          obtain ⟨n3, hn3, hid3, hc3, _⟩ :=
            hep doc._courseId d._enabledPlugins.isSome db2 n2 hn2
          rw [heq3] at hn3
          exact ⟨n3, hn3, hid3.trans (hid2.trans hid1), hc3.trans (hc2.trans hc1)⟩
        next a db3 heq3 =>
          obtain ⟨n3, hn3, hid3, hc3, _⟩ :=
            hep doc._courseId d._enabledPlugins.isSome db2 n2 hn2
          rw [heq3] at hn3
          exact ⟨n3, hn3, hid3.trans (hid2.trans hid1), hc3.trans (hc2.trans hc1)⟩
  · intro doc db' hrun
    unfold update at hrun
    revert hrun
    split
    next e db1 heq => intro hrun; cases hrun
    next doc0 db1 heq =>
      obtain ⟨orig, hfind, hid, hdoc0, hdb1⟩ := baseUpdate_ok_inv heq
      have hw : applyDelta d orig ∈ db1.nodes := by
        rw [hdb1]
        refine List.mem_map.mpr ⟨orig, List.mem_of_find?_eq_some hfind, ?_⟩
        show (if (orig._id == i) = true then applyDelta d orig else orig) = applyDelta d orig
        rw [if_pos (by simp [hid])]
      split
      next e db2 heq2 => intro hrun; cases hrun
      next a db2 heq2 =>
        obtain ⟨n2, hn2, hid2, _, hp2⟩ := hso doc0 true db1 (applyDelta d orig) hw
        rw [heq2] at hn2
        split
        next e db3 heq3 => intro hrun; cases hrun
        next a db3 heq3 =>
          intro hrun
          injection hrun with hfst hsnd
          injection hfst with hdoc
          obtain ⟨n3, hn3, hid3, _, hp3⟩ :=
            hep doc0._courseId d._enabledPlugins.isSome db2 n2 hn2
          rw [heq3] at hn3
          have hn3' : n3 ∈ db3.nodes := hn3
          subst hsnd
          refine ⟨⟨orig, hfind, ?_⟩, ⟨n3, hn3', ?_, ?_⟩⟩
          · rw [← hdoc, hdoc0]
          · rw [hid3, hid2, applyDelta_id, hid]
          · rw [hp3, hp2, ← hdoc, hdoc0]

instance {e a : Type} [DecidableEq e] [DecidableEq a] : DecidableEq (Except e a) := fun x y =>
  match x, y with
  | Except.ok v, Except.ok w =>
      if h : v = w then Decidable.isTrue (h ▸ rfl)
      else Decidable.isFalse (fun he => h (Except.ok.inj he))
  | Except.error v, Except.error w =>
      if h : v = w then Decidable.isTrue (h ▸ rfl)
      else Decidable.isFalse (fun he => h (Except.error.inj he))
  | Except.ok _, Except.error _ => Decidable.isFalse (fun he => Except.noConfusion he)
  | Except.error _, Except.ok _ => Decidable.isFalse (fun he => Except.noConfusion he)

theorem idIdx_get {l : List Node} (hnd : (l.map (fun n => n._id)).Nodup) :
    ∀ j (hj : j < l.length), idIdx (l.get ⟨j, hj⟩)._id l = some j := by
  induction l with
  | nil => intro j hj; simp at hj
  | cons x rest ih =>
      intro j hj
      simp only [List.map_cons, List.nodup_cons] at hnd
      cases j with
      | zero => simp [idIdx]
      | succ k =>
          have hk : k < rest.length := by simpa using Nat.lt_of_succ_lt_succ hj
          have hmem : (rest.get ⟨k, hk⟩)._id ∈ rest.map (fun n => n._id) :=
            List.mem_map_of_mem _ (rest.get_mem k hk)
          have hne : (x._id == ((x :: rest).get ⟨k + 1, hj⟩)._id) = false := by
            show (x._id == (rest.get ⟨k, hk⟩)._id) = false
            simp only [beq_eq_false_iff_ne, ne_eq]
            intro he
            exact hnd.1 (he ▸ hmem)
          show idIdx ((x :: rest).get ⟨k + 1, hj⟩)._id (x :: rest) = some (k + 1)
          rw [show ((x :: rest).get ⟨k + 1, hj⟩) = rest.get ⟨k, hk⟩ from rfl]
          simp only [idIdx, hne]
          rw [show (x._id == (rest.get ⟨k, hk⟩)._id) = false from hne]
          simp only [Bool.false_eq_true, if_false]
          rw [ih hnd.2 k hk]
          rfl

instance (db : DB) : Decidable (WF db) := by
  unfold WF
  infer_instance

/-! ## Concrete fixtures

A small well-formed course used by the concrete runs: a course, its config
(whose menu and theme plugins are the current `_enabledPlugins`), a page, an
article and a block, each with `_sortOrder = 1` within its sibling group. -/

def reg0 : Registry := { extensions := [], pluginSchemas := [], schemaTarget := [] }

def course1 : Node := { _id := 1, _type := CType.course, _courseId := some 1 }

def config2 : Node :=
  { _id := 2, _type := CType.config, _parentId := some 1, _courseId := some 1,
    _enabledPlugins := ["m", "t"], _menu := some "m", _theme := some "t" }

def page3 : Node :=
  { _id := 3, _type := CType.page, _parentId := some 1, _courseId := some 1,
    _sortOrder := some 1 }

def article4 : Node :=
  { _id := 4, _type := CType.article, _parentId := some 3, _courseId := some 1,
    _sortOrder := some 1 }

def block5 : Node :=
  { _id := 5, _type := CType.block, _parentId := some 4, _courseId := some 1,
    _sortOrder := some 1 }

def db0 : DB := { nodes := [course1, config2, page3, article4, block5], nextId := 10, reg := reg0 }

/-- Fault injection for the rollback claim: the store refuses the third
document the creation chain asks for. -/
def dbC1 : DB := { db0 with failAt := some 12 }

/-- A second course alongside the first, the cross-course destination. -/
def course20 : Node := { _id := 20, _type := CType.course, _courseId := some 20 }

def config21 : Node :=
  { _id := 21, _type := CType.config, _parentId := some 20, _courseId := some 20,
    _enabledPlugins := ["m", "t"], _menu := some "m", _theme := some "t" }

def page22 : Node :=
  { _id := 22, _type := CType.page, _parentId := some 20, _courseId := some 20,
    _sortOrder := some 1 }

def dbC2 : DB :=
  { nodes := [course1, config2, page3, article4, course20, config21, page22],
    nextId := 30, reg := reg0 }

/-- A second article, the re-parent destination of the block move. -/
def article8 : Node :=
  { _id := 8, _type := CType.article, _parentId := some 3, _courseId := some 1,
    _sortOrder := some 2 }

def block6 : Node :=
  { _id := 6, _type := CType.block, _parentId := some 4, _courseId := some 1,
    _sortOrder := some 2 }

def block7 : Node :=
  { _id := 7, _type := CType.block, _parentId := some 4, _courseId := some 1,
    _sortOrder := some 3 }

def dbC4 : DB :=
  { nodes := [course1, config2, page3, article4, block5, block6, block7, article8],
    nextId := 10, reg := reg0 }

/-- A course without a config document. -/
def db10 : DB := { nodes := [course1, page3], nextId := 10, reg := reg0 }

/-- Page data whose `_parentId` resolves to no document of `db0`. -/
def dataNoParent : Node := { _id := 0, _type := CType.page, _parentId := some 99 }

/-! ## The claims -/

/-- Claim C7, corrected: for data that is neither a course nor a config and
whose `_parentId` resolves to no stored document, `insert` fails without
persisting anything — but the error raised is the bare generic `Error()` of
the source (`Err.generic` in the model), not a typed `InvalidParent` or
`NotFound` error. -/
theorem C7_insert_missing_parent_generic (data : Node) (opts : Opts) (db : DB)
    (ht1 : data._type ≠ CType.course) (ht2 : data._type ≠ CType.config)
    (hp : (data._parentId.bind (findById db)).isNone) :
    insert data opts db = (Except.error Err.generic, db) := by
  unfold insert
  rw [if_pos ⟨ht1, ht2, hp⟩]

/-- Claim C7's counterexample to the claimed error taxonomy: inserting a page
whose parent id `99` resolves to nothing fails with the bare generic error,
which is neither `InvalidParent` nor `NotFound`. -/
theorem C7_counterexample :
    (insert dataNoParent {} db0).1 = Except.error Err.generic
      ∧ Err.generic ≠ Err.invalidParent ∧ Err.generic ≠ Err.notFound := by
  decide

/-- Claim C7's amended theorem at the concrete input. -/
theorem C7_witness : insert dataNoParent {} db0 = (Except.error Err.generic, db0) :=
  C7_insert_missing_parent_generic dataNoParent {} db0 (by decide) (by decide) (by decide)

/-- Claim C10, confirmed: when `getDescendants` is called on a course without
a config document (and the frontier loop terminates, yielding `l`), the raw
result of the failed config lookup is still pushed, so the returned array
ends in an `undefined` (`none`) entry rather than omitting it. -/
theorem C10_getDescendants_missing_config (db : DB) (root : Node) (l : List Node)
    (hroot : root._type = CType.course)
    (hcfg : (courseItemsOf db root._courseId).find? (fun c => c._type == CType.config) = none)
    (hbfs : bfsAux (courseItemsOf db root._courseId)
        ((courseItemsOf db root._courseId).length + 1) [root] = some l) :
    getDescendants db root = some (l.map some ++ [none])
      ∧ (l.map some ++ [none]).getLast? = some none := by
  constructor
  · simp only [getDescendants]
    rw [hbfs]
    simp only [Option.map_some']
    rw [if_pos hroot, hcfg]
  · rw [List.getLast?_concat]

/-- Claim C10's theorem at the concrete input: the one-page course `db10` has
no config, and its descendant array ends in the undefined entry. -/
theorem C10_witness :
    getDescendants db10 course1 = some ([page3].map some ++ [none])
      ∧ ([page3].map some ++ [none]).getLast? = some none :=
  C10_getDescendants_missing_config db10 course1 [page3] (by decide) (by decide) (by decide)

/-- Claim C2, corrected: `cut(parent, child, sortOrder)` re-parents the child
(and on success the merged document carries `_parentId = parent._id` and the
given `_sortOrder`), but it rewrites no `_courseId` at all — the recursive
cross-course rewrite the spec describes is commented out in the source, so
every stored document keeps its `_courseId`. -/
theorem C2_cut_keeps_courseIds (parent child : Node) (so : Option Int) (db : DB) :
    (∀ n ∈ db.nodes, ∃ n' ∈ ((cut parent child so) db).2.nodes,
        n'._id = n._id ∧ n'._courseId = n._courseId)
    ∧ (∀ doc db', cut parent child so db = (Except.ok doc, db') →
        doc._parentId = some parent._id
        ∧ (∀ s, so = some s → doc._sortOrder = some s)
        ∧ ∃ n' ∈ db'.nodes, n'._id = child._id ∧ n'._parentId = some parent._id) := by
  have h := update_facts child._id { _parentId := some parent._id, _sortOrder := so } db rfl
  refine ⟨h.1, ?_⟩
  intro doc db' hrun
  obtain ⟨⟨orig, hfind, hdoc⟩, n', hn', hid', hp'⟩ := h.2 doc db' hrun
  refine ⟨?_, ?_, n', hn', hid', ?_⟩
  · rw [hdoc]
    exact applyDelta_parentId_some rfl orig
  · intro s hs
    rw [hdoc]
    exact applyDelta_sortOrder_some hs orig
  · rw [hp', hdoc]
    exact applyDelta_parentId_some rfl orig

/-- Claim C2's counterexample: cutting page `3` of course `1` under page `22`
of course `20` re-parents it but leaves its `_courseId` — and that of its
descendant article `4` — at course `1`: no descendant is moved to course
`20`. -/
theorem C2_counterexample :
    (((cut page22 page3 (some 1)) dbC2).2.nodes.map (fun n => (n._id, n._courseId, n._parentId)))
        = [(1, some 1, none), (2, some 1, some 1), (3, some 1, some 22), (4, some 1, some 3),
           (20, some 20, none), (21, some 20, some 20), (22, some 20, some 20)]
      ∧ page22._courseId = some 20 := by
  decide

/-- Claim C9, confirmed: `updateSortOrder` on the insert/update path
re-numbers the spliced sibling list to `1..N` in list order (the pointwise
`soPatch`, which writes position `i` exactly the value `i + 1`), and when the
spliced list already carries exactly those values the store is returned
untouched — the equal-value guard of the renumbering loop skips every
write. -/
theorem C9_updateSortOrder_idempotent (item : Node) (db : DB) (pid : Nat)
    (ht1 : item._type ≠ CType.config) (ht2 : item._type ≠ CType.course)
    (hp : item._parentId = some pid)
    (hdb : (db.nodes.map (fun n => n._id)).Nodup)
    (hin : item ∈ db.nodes) :
    updateSortOrder item true db
        = (Except.ok (), { db with nodes := db.nodes.map (soPatch 0 (splicedSibs db item pid)) })
      ∧ ((splicedSibs db item pid).map (fun n => n._sortOrder)
            = (List.range (splicedSibs db item pid).length).map
                (fun (i : Nat) => some ((i : Int) + 1))
          → updateSortOrder item true db = (Except.ok (), db)) := by
  refine ⟨updateSortOrder_update_eq ht1 ht2 hp hdb hin, ?_⟩
  intro hmap
  unfold updateSortOrder
  rw [ite_run, if_neg (by simp [ht1, ht2, hp])]
  rw [hp]
  show (getDB >>= _) db = _
  rw [bind_run, getDB_run]
  show renumberFrom 0 (splicedSibs db item pid) db = _
  refine renumberFrom_noop ?_
  intro i hi
  have hlen : i < ((splicedSibs db item pid).map (fun n => n._sortOrder)).length := by
    simpa using hi
  have h3 := List.getElem_of_eq hmap hlen
  rw [List.getElem_map, List.getElem_map, List.getElem_range] at h3
  rw [show (splicedSibs db item pid).get ⟨i, hi⟩ = (splicedSibs db item pid)[i] from rfl, h3]
  congr 2
  omega

/-- Claim C9's no-write run at the concrete input: the block already sits at
position 1 of its group, so the maintainer leaves the store untouched. -/
theorem C9_witness : updateSortOrder block5 true db0 = (Except.ok (), db0) :=
  (C9_updateSortOrder_idempotent block5 db0 4 (by decide) (by decide) (by decide) (by decide)
    (by decide)).2 (by decide)

/-- Claim C4, corrected: `updateSortOrder` renumbers the *affected* sibling
group to exactly the contiguous `1..N` in list order on every path — on the
insert/update path the spliced list around the written item, and on the
deletion path the remaining children of the vacated parent.  (The
counterexample shows the invariant does not hold for every sibling group:
the group a re-parented node leaves is never renumbered.) -/
theorem C4_affected_group_renumbered (item : Node) (db : DB) (pid : Nat)
    (ht1 : item._type ≠ CType.config) (ht2 : item._type ≠ CType.course)
    (hp : item._parentId = some pid)
    (hdb : (db.nodes.map (fun n => n._id)).Nodup) :
    (item ∈ db.nodes →
      ∀ j (hj : j < (splicedSibs db item pid).length),
        ∃ n' ∈ ((updateSortOrder item true) db).2.nodes,
          n'._id = ((splicedSibs db item pid).get ⟨j, hj⟩)._id
            ∧ n'._sortOrder = some ((j : Int) + 1))
    ∧ (∀ parent, findById db pid = some parent →
        ∀ j (hj : j < (findSiblings db parent._id none).length),
          ∃ n' ∈ ((updateSortOrder item false) db).2.nodes,
            n'._id = ((findSiblings db parent._id none).get ⟨j, hj⟩)._id
              ∧ n'._sortOrder = some ((j : Int) + 1)) := by
  constructor
  · intro hin j hj
    rw [updateSortOrder_update_eq ht1 ht2 hp hdb hin]
    have hside := @splicedSibs_side db item pid hdb hin
    have hget : (splicedSibs db item pid).get ⟨j, hj⟩ ∈ db.nodes :=
      hside.2 _ ((splicedSibs db item pid).get_mem j hj)
    refine ⟨soPatch 0 (splicedSibs db item pid) ((splicedSibs db item pid).get ⟨j, hj⟩),
      List.mem_map_of_mem _ hget, ?_, ?_⟩
    · unfold soPatch
      rw [idIdx_get hside.1 j hj]
    · unfold soPatch
      rw [idIdx_get hside.1 j hj]
      show some (((0 + j : Nat) : Int) + 1) = some ((j : Int) + 1)
      congr 1
      omega
  · intro parent hpar j hj
    rw [updateSortOrder_delete_eq ht1 ht2 hp hdb hpar]
    have hnd := findSiblings_ids_nodup hdb parent._id none
    have hget : (findSiblings db parent._id none).get ⟨j, hj⟩ ∈ db.nodes :=
      (mem_findSiblings ((findSiblings db parent._id none).get_mem j hj)).1
    refine ⟨soPatch 0 (findSiblings db parent._id none)
        ((findSiblings db parent._id none).get ⟨j, hj⟩),
      List.mem_map_of_mem _ hget, ?_, ?_⟩
    · unfold soPatch
      rw [idIdx_get hnd j hj]
    · unfold soPatch
      rw [idIdx_get hnd j hj]
      show some (((0 + j : Nat) : Int) + 1) = some ((j : Int) + 1)
      congr 1
      omega

/-- Claim C4's counterexample: re-parenting block `5` from article `4` to
article `8` renumbers the destination group only; the group it left keeps
`_sortOrder` values `[2, 3]`, which is not the contiguous `1..N`. -/
theorem C4_counterexample :
    ((update 5 { _parentId := some 8 } dbC4).2.nodes.filter
        (fun n => n._parentId == some 4)).map (fun n => n._sortOrder) = [some 2, some 3]
      ∧ ((update 5 { _parentId := some 8 } dbC4).2.nodes.any
        (fun n => n._id == 5 && n._parentId == some 8 && n._sortOrder == some 1)) = true := by
  decide

/-- Claim C4's renumbering at the concrete input: position 0 of the affected
group receives `_sortOrder 1`. -/
theorem C4_witness :
    ∃ n' ∈ ((updateSortOrder block5 true) db0).2.nodes,
      n'._id = ((splicedSibs db0 block5 4).get ⟨0, by decide⟩)._id
        ∧ n'._sortOrder = some ((0 : Int) + 1) :=
  (C4_affected_group_renumbered block5 db0 4 (by decide) (by decide) (by decide)
    (by decide)).1 (by decide) 0 (by decide)

/-! ### The short-circuit condition of the plugin reconciler, as set identity -/

theorem nodup_subset_length_eq {α : Type} [DecidableEq α] {l1 l2 : List α}
    (h1 : l1.Nodup) (h2 : l2.Nodup) (hsub : ∀ x ∈ l1, x ∈ l2)
    (hlen : l2.length ≤ l1.length) : ∀ x ∈ l2, x ∈ l1 := by
  intro x hx
  have hfs : l1.toFinset ⊆ l2.toFinset := by
    intro a ha
    rw [List.mem_toFinset] at ha ⊢
    exact hsub a ha
  have hcard : l2.toFinset.card ≤ l1.toFinset.card := by
    rw [List.toFinset_card_of_nodup h1, List.toFinset_card_of_nodup h2]
    exact hlen
  have heq : l1.toFinset = l2.toFinset := Finset.eq_of_subset_of_card_le hfs hcard
  rw [← List.mem_toFinset, ← heq, List.mem_toFinset] at hx
  exact hx

/-- The length-plus-containment check of `updateEnabledPlugins` equals set
identity, provided the current list has no duplicates and the candidate list
holds only defined plugin names. -/
theorem lengthContain_iff_setEq {cand : List (Option String)} {cur : List String}
    (hndCur : cur.Nodup) (hndCand : cand.Nodup) (hdef : ∀ p ∈ cand, p.isSome) :
    ((cur.length == cand.length && cur.all (fun p => cand.contains (some p))) = true)
      ↔ (∀ p : String, p ∈ cur ↔ some p ∈ cand) := by
  have hndMap : (cur.map some).Nodup := hndCur.map (fun a b => Option.some.inj)
  constructor
  · intro hC
    rw [Bool.and_eq_true] at hC
    have hlen : cur.length = cand.length := by
      have := hC.1
      simpa using this
    have hall : ∀ p ∈ cur, some p ∈ cand := by
      intro p hp
      have := hC.2
      rw [List.all_eq_true] at this
      have h2 := this p hp
      simpa using h2
    have hsub : ∀ x ∈ cur.map some, x ∈ cand := by
      intro x hx
      obtain ⟨p, hp, rfl⟩ := List.mem_map.mp hx
      exact hall p hp
    have hback := nodup_subset_length_eq hndMap hndCand hsub
      (by rw [List.length_map]; omega)
    intro p
    constructor
    · exact hall p
    · intro hp
      have := hback (some p) hp
      obtain ⟨q, hq, he⟩ := List.mem_map.mp this
      rw [← Option.some.inj he]
      exact hq
  · intro hset
    have hmm : ∀ x, x ∈ cur.map some ↔ x ∈ cand := by
      intro x
      constructor
      · intro hx
        obtain ⟨p, hp, rfl⟩ := List.mem_map.mp hx
        exact (hset p).mp hp
      · intro hx
        obtain ⟨p, rfl⟩ := Option.isSome_iff_exists.mp (hdef x hx)
        exact List.mem_map_of_mem some ((hset p).mpr hx)
    have hfs : (cur.map some).toFinset = cand.toFinset := by
      apply Finset.ext
      intro x
      rw [List.mem_toFinset, List.mem_toFinset]
      exact hmm x
    have hlen : cur.length = cand.length := by
      have h1 := List.toFinset_card_of_nodup hndMap
      have h2 := List.toFinset_card_of_nodup hndCand
      rw [hfs] at h1
      rw [← List.length_map cur some]
      omega
    rw [Bool.and_eq_true]
    refine ⟨by simpa using hlen, ?_⟩
    rw [List.all_eq_true]
    intro p hp
    simpa using (hset p).mp hp

theorem enabledCandidate_nodup (db : DB) (cid : Option Nat) (config : Node) :
    (enabledCandidate db cid config).Nodup := by
  unfold enabledCandidate
  exact dedupFirst_nodup _

/-- Claim C6, confirmed: without `forceUpdate`, `updateEnabledPlugins`
performs no store write exactly when the recomputed candidate list is
identical as a set to the config's current `_enabledPlugins` (the stores
considered hold duplicate-free current lists and defined candidate entries);
otherwise it persists the candidate list on the config document. -/
theorem C6_updateEnabledPlugins_short_circuit (db : DB) (cid : Option Nat) (config : Node)
    (hcfg : (courseItemsOf db cid).find? (fun c => c._type == CType.config) = some config)
    (hnd : config._enabledPlugins.Nodup)
    (hdef : ∀ p ∈ enabledCandidate db cid config, p.isSome) :
    ((∀ p : String, p ∈ config._enabledPlugins ↔ some p ∈ enabledCandidate db cid config)
        → updateEnabledPlugins cid false db = (Except.ok (), db))
    ∧ (¬ (∀ p : String, p ∈ config._enabledPlugins ↔ some p ∈ enabledCandidate db cid config)
        → updateEnabledPlugins cid false db
            = (Except.ok (),
               { db with nodes := db.nodes.map (fun m =>
                   if m._id == config._id then
                     applyDelta { _enabledPlugins := some ((enabledCandidate db cid config).filterMap id) } m
                   else m) })) := by
  have hiff := lengthContain_iff_setEq hnd (enabledCandidate_nodup db cid config) hdef
  constructor
  · intro hset
    exact updateEnabledPlugins_short hcfg (hiff.mpr hset)
  · intro hset
    rw [updateEnabledPlugins_config_run hcfg]
    unfold updateEnabledPluginsCore
    rw [if_neg (by
      intro hC
      exact hset (hiff.mp (by
        rw [Bool.not_false, Bool.true_and] at hC
        exact hC)))]
    exact updateEnabledPluginsWrite_eq hcfg

/-- Claim C6's short-circuit at the concrete input: the candidate list of
`db0` is exactly the current `["m", "t"]` of the config, so no write
happens. -/
theorem C6_witness : updateEnabledPlugins (some 1) false db0 = (Except.ok (), db0) :=
  (C6_updateEnabledPlugins_short_circuit db0 (some 1) config2 (by decide) (by decide)
    (by decide)).1 (by
      intro p
      have hc : enabledCandidate db0 (some 1) config2 = [some "m", some "t"] := by decide
      rw [hc]
      show p ∈ ["m", "t"] ↔ some p ∈ [some "m", some "t"]
      simp)

/-- Claim C8, corrected: cloning without `isCut` is not free of writes to the
source subtree — it may rewrite `_sortOrder` (and `_enabledPlugins`) on
pre-existing documents — but that is all it may do: every document present
before survives with the same `_id`, `_parentId`, `_courseId`, `_type` and
all other fields (`soep` agreement), new documents are only appended, and
well-formedness of the store is preserved. -/
theorem C8_clone_frame (fuel : Nat) (userId : String) (id : Nat) (parentId : Option Nat)
    (customData globalData : Delta) (opts : Opts) (db : DB) (hwf : WF db) :
    Ext db ((clone fuel userId id parentId customData globalData false opts) db).2
      ∧ WF ((clone fuel userId id parentId customData globalData false opts) db).2
      ∧ ∀ n ∈ db.nodes,
          ∃ n' ∈ ((clone fuel userId id parentId customData globalData false opts) db).2.nodes,
            soep n n' := by
  have h := cloneSafeAux fuel userId id parentId customData globalData opts db hwf
  exact ⟨h.1, h.2, Ext_mem h.1⟩

/-- Claim C8's counterexample: duplicating block `5` into its own article
shifts the source block's `_sortOrder` from `1` to `2` (the duplicate is
spliced in front of it), so the source subtree is not unchanged. -/
theorem C8_counterexample :
    ((clone 10 "u" 5 (some 4) {} {} false {}) db0).2.nodes.map
        (fun n => (n._id, n._type, n._parentId, n._sortOrder))
      = [(1, CType.course, none, none), (2, CType.config, some 1, none),
         (3, CType.page, some 1, some 1), (4, CType.article, some 3, some 1),
         (5, CType.block, some 4, some 2), (10, CType.block, some 4, some 1)]
      ∧ block5 ∈ db0.nodes ∧ block5._sortOrder = some 1 := by
  decide

/-- Claim C8's frame at the concrete input. -/
theorem C8_witness :
    WF db0
      ∧ (Ext db0 ((clone 10 "u" 5 (some 4) {} {} false {}) db0).2
        ∧ WF ((clone 10 "u" 5 (some 4) {} {} false {}) db0).2
        ∧ ∀ n ∈ db0.nodes,
            ∃ n' ∈ ((clone 10 "u" 5 (some 4) {} {} false {}) db0).2.nodes, soep n n') :=
  ⟨by decide, C8_clone_frame 10 "u" 5 (some 4) {} {} {} db0 (by decide)⟩

/-- Claim C1: the creation chain of `insertRecursive` has no try/catch, so
when the store refuses the third document of the chain the two documents
already created (article `10` and block `11`) stay behind and the error
propagates: the operation is not all-or-nothing. -/
theorem C1_insertRecursive_no_rollback :
    (insertRecursive (some 3) "u" none false none {} dbC1).1 = Except.error Err.storeFailure
      ∧ ((insertRecursive (some 3) "u" none false none {} dbC1).2.nodes.map (fun n => n._id))
          = [1, 2, 3, 4, 5, 10, 11]
      ∧ (db0.nodes.map (fun n => n._id)) = [1, 2, 3, 4, 5] := by
  decide

/-! ### The frontier loop of `getDescendants`, characterized -/

/-- The parent-link step of the hierarchy navigator: `b` is a stored course
item sitting directly under `a`. -/
def ParentStep (ci : List Node) (a b : Node) : Prop := b ∈ ci ∧ b._parentId = some a._id

theorem transGen_cases_head {α : Type} {r : α → α → Prop} {a c : α}
    (h : Relation.TransGen r a c) : r a c ∨ ∃ b, r a b ∧ Relation.TransGen r b c := by
  obtain ⟨b, hab, hbc⟩ := Relation.TransGen.head'_iff.mp h
  rcases Relation.reflTransGen_iff_eq_or_transGen.mp hbc with heq | htg
  · exact Or.inl (heq ▸ hab)
  · exact Or.inr ⟨b, hab, htg⟩

theorem mem_bfsStep {ci frontier : List Node} {x : Node} :
    x ∈ bfsStep ci frontier ↔ ∃ f ∈ frontier, ParentStep ci f x := by
  unfold bfsStep ParentStep
  simp only [List.mem_flatMap, List.mem_filter, beq_iff_eq]

/-- What the frontier loop returns, when it returns: exactly the nodes
reachable from the frontier through one or more parent links. -/
theorem bfsAux_mem (ci : List Node) :
    ∀ (fuel : Nat) (frontier l : List Node),
      bfsAux ci fuel frontier = some l →
      ∀ x, x ∈ l ↔ ∃ f ∈ frontier, Relation.TransGen (ParentStep ci) f x := by
  intro fuel
  induction fuel with
  | zero =>
      intro frontier l h
      cases h
  | succ fuel ih =>
      intro frontier l h
      simp only [bfsAux] at h
      by_cases hemp : (bfsStep ci frontier).isEmpty = true
      · rw [if_pos hemp] at h
        injection h with h
        subst h
        intro x
        simp only [List.not_mem_nil, false_iff]
        rintro ⟨f, hf, htg⟩
        rw [List.isEmpty_iff] at hemp
        rcases transGen_cases_head htg with hstep | ⟨y, hstep, _⟩
        · have hx : x ∈ bfsStep ci frontier := mem_bfsStep.mpr ⟨f, hf, hstep⟩
          rw [hemp] at hx
          cases hx
        · have hy : y ∈ bfsStep ci frontier := mem_bfsStep.mpr ⟨f, hf, hstep⟩
          rw [hemp] at hy
          cases hy
      · rw [if_neg hemp] at h
        obtain ⟨l2, hl2, heq⟩ := Option.map_eq_some'.mp h
        subst heq
        intro x
        rw [List.mem_append]
        constructor
        · rintro (hx | hx)
          · obtain ⟨f, hf, hstep⟩ := mem_bfsStep.mp hx
            exact ⟨f, hf, Relation.TransGen.single hstep⟩
          · obtain ⟨g, hg, htg⟩ := (ih _ _ hl2 x).mp hx
            obtain ⟨f, hf, hstep⟩ := mem_bfsStep.mp hg
            exact ⟨f, hf, Relation.TransGen.head hstep htg⟩
        · rintro ⟨f, hf, htg⟩
          rcases transGen_cases_head htg with hstep | ⟨y, hstep, htg2⟩
          · exact Or.inl (mem_bfsStep.mpr ⟨f, hf, hstep⟩)
          · exact Or.inr ((ih _ _ hl2 x).mpr ⟨y, mem_bfsStep.mpr ⟨f, hf, hstep⟩, htg2⟩)

theorem getDescendants_some_inv {db : DB} {root : Node} {ds : List (Option Node)}
    (h : getDescendants db root = some ds) :
    ∃ l, bfsAux (courseItemsOf db root._courseId)
        ((courseItemsOf db root._courseId).length + 1) [root] = some l
      ∧ ds = (if root._type = CType.course
              then l.map some
                ++ [(courseItemsOf db root._courseId).find? (fun c => c._type == CType.config)]
              else l.map some) := by
  simp only [getDescendants] at h
  obtain ⟨l, hl, heq⟩ := Option.map_eq_some'.mp h
  refine ⟨l, hl, ?_⟩
  rw [← heq]

/-! ### `deleteAll`, characterized -/

/-- The ids the listed documents carry. -/
def delIds (entries : List (Option Node)) : List Nat :=
  entries.filterMap (fun e => e.map (fun d => d._id))

theorem mem_delIds {entries : List (Option Node)} {n : Node} (h : some n ∈ entries) :
    n._id ∈ delIds entries := by
  unfold delIds
  exact List.mem_filterMap.mpr ⟨some n, h, rfl⟩

theorem deleteAll_somes : ∀ (entries : List (Option Node)) (db : DB),
    (∀ e ∈ entries, e.isSome) →
    deleteAll entries db
      = (Except.ok (),
         { db with nodes := db.nodes.filter (fun n => !(delIds entries).contains n._id) }) := by
  intro entries
  induction entries with
  | nil =>
      intro db _
      show (pure () : M Unit) db = _
      rw [pure_run]
      have h1 : db.nodes.filter
          (fun n => !(delIds ([] : List (Option Node))).contains n._id) = db.nodes := by
        apply List.filter_eq_self.mpr
        intro a _
        rfl
      rw [h1]
  | cons e rest ih =>
      intro db h
      have he := h e (List.mem_cons_self e rest)
      obtain ⟨d, rfl⟩ := Option.isSome_iff_exists.mp he
      show (baseDelete d._id >>= fun _ => deleteAll rest) db = _
      rw [bind_run]
      show deleteAll rest { db with nodes := db.nodes.filter (fun n => n._id != d._id) } = _
      rw [ih _ (fun x hx => h x (List.mem_cons_of_mem _ hx))]
      have h2 : (db.nodes.filter (fun n => n._id != d._id)).filter
            (fun n => !(delIds rest).contains n._id)
          = db.nodes.filter (fun n => !(delIds (some d :: rest)).contains n._id) := by
        rw [List.filter_filter]
        apply List.filter_congr
        intro n _
        have h3 : delIds (some d :: rest) = d._id :: delIds rest := rfl
        rw [h3, List.contains_cons, Bool.not_or]
        simp only [bne]
        cases n._id == d._id <;> cases (delIds rest).contains n._id <;> rfl
      rw [h2]

theorem deleteAll_ok_all_some : ∀ (entries : List (Option Node)) (db db1 : DB),
    deleteAll entries db = (Except.ok (), db1) → ∀ e ∈ entries, e.isSome := by
  intro entries
  induction entries with
  | nil =>
      intro db db1 _ e he
      cases he
  | cons e rest ih =>
      intro db db1 h f hf
      cases e with
      | none =>
          exact Except.noConfusion
            (congrArg Prod.fst h : (Except.error Err.crash : Except Err Unit) = Except.ok ())
      | some d =>
          rcases List.mem_cons.mp hf with rfl | hf2
          · rfl
          · have h2 : deleteAll rest
                { db with nodes := db.nodes.filter (fun n => n._id != d._id) }
                = (Except.ok (), db1) := h
            exact ih _ _ h2 f hf2

theorem InPlace_ids {R : Node → Node → Prop} (hid : ∀ a b, R a b → b._id = a._id)
    {db db' : DB} (h : InPlace R db db') :
    ∀ m ∈ db'.nodes, ∃ n ∈ db.nodes, m._id = n._id := by
  obtain ⟨f, hdb, hf⟩ := h
  intro m hm
  rw [hdb] at hm
  obtain ⟨n, hn, rfl⟩ := List.mem_map.mp hm
  exact ⟨n, hn, hid n (f n) (hf n hn)⟩

/-- Claim C5, confirmed (for terminating stores): on success, `delete`
returns exactly the target followed by the computed descendant array, that
array holds precisely the nodes reachable from the target by parent links
within its course (plus the course's config document when the target is a
course), and no document with a returned id survives in the store; a query
resolving to no node fails with `NotFound` and deletes nothing. -/
theorem C5_delete_characterization (q : Node → Bool) (db db' : DB) (target : Node)
    (ds ret : List (Option Node))
    (hq : db.nodes.find? q = some target)
    (hds : getDescendants db target = some ds)
    (hrun : deleteOp q db = (Except.ok ret, db')) :
    ret = some target :: ds
    ∧ (∀ n : Node, some n ∈ ds ↔
        (Relation.TransGen (ParentStep (courseItemsOf db target._courseId)) target n
          ∨ (target._type = CType.course
             ∧ (courseItemsOf db target._courseId).find?
                 (fun c => c._type == CType.config) = some n)))
    ∧ (∀ m ∈ db'.nodes, m._id ≠ target._id ∧ ∀ n : Node, some n ∈ ds → m._id ≠ n._id)
    ∧ (∀ (q0 : Node → Bool) (db0 : DB), db0.nodes.find? q0 = none →
        deleteOp q0 db0 = (Except.error Err.notFound, db0)) := by
  simp only [deleteOp] at hrun
  rw [hq] at hrun
  dsimp only at hrun
  rw [hds] at hrun
  dsimp only at hrun
  revert hrun
  split
  next e db1 heq1 => intro hrun; cases hrun
  next u db1 heq1 =>
  split
  next e db2 heq2 => intro hrun; cases hrun
  next u2 db2 heq2 =>
  split
  next e db3 heq3 => intro hrun; cases hrun
  next u3 db3 heq3 =>
  intro hrun
  injection hrun with hfst hsnd
  injection hfst with hret
  have hall : ∀ e ∈ ds ++ [some target], e.isSome := deleteAll_ok_all_some _ _ _ heq1
  obtain ⟨l, hbfs, hdseq⟩ := getDescendants_some_inv hds
  have hmem := bfsAux_mem (courseItemsOf db target._courseId) _ _ _ hbfs
  have hmem1 : ∀ x : Node, x ∈ l
      ↔ Relation.TransGen (ParentStep (courseItemsOf db target._courseId)) target x := by
    intro x
    rw [hmem x]
    constructor
    · rintro ⟨f, hf, htg⟩
      rw [List.mem_singleton] at hf
      exact hf ▸ htg
    · intro htg
      exact ⟨target, List.mem_singleton.mpr rfl, htg⟩
  have hdsmem : ∀ n : Node, some n ∈ ds ↔
      (Relation.TransGen (ParentStep (courseItemsOf db target._courseId)) target n
        ∨ (target._type = CType.course
           ∧ (courseItemsOf db target._courseId).find?
               (fun c => c._type == CType.config) = some n)) := by
    intro n
    by_cases hc : target._type = CType.course
    · rw [if_pos hc] at hdseq
      cases hcfg : (courseItemsOf db target._courseId).find? (fun c => c._type == CType.config) with
      | none =>
          exfalso
          rw [hcfg] at hdseq
          have hnone : (none : Option Node) ∈ ds ++ [some target] := by
            rw [hdseq]
            exact List.mem_append_left _ (List.mem_append_right _ (List.mem_singleton.mpr rfl))
          have := hall none hnone
          cases this
      | some c =>
          rw [hcfg] at hdseq
          subst hdseq
          constructor
          · intro h
            rcases List.mem_append.mp h with h | h
            · obtain ⟨m, hm, he⟩ := List.mem_map.mp h
              exact Or.inl ((Option.some.inj he) ▸ (hmem1 m).mp hm)
            · have hnc : n = c := Option.some.inj (List.mem_singleton.mp h)
              refine Or.inr ⟨hc, ?_⟩
              rw [hnc]
          · intro h
            rcases h with htg | ⟨_, hfind⟩
            · exact List.mem_append.mpr
                (Or.inl (List.mem_map.mpr ⟨n, (hmem1 n).mpr htg, rfl⟩))
            · have hcn : c = n := Option.some.inj hfind
              refine List.mem_append.mpr (Or.inr (List.mem_singleton.mpr ?_))
              rw [hcn]
    · rw [if_neg hc] at hdseq
      subst hdseq
      constructor
      · intro h
        obtain ⟨m, hm, he⟩ := List.mem_map.mp h
        exact Or.inl ((Option.some.inj he) ▸ (hmem1 m).mp hm)
      · intro h
        rcases h with htg | ⟨hcourse, _⟩
        · exact List.mem_map.mpr ⟨n, (hmem1 n).mpr htg, rfl⟩
        · exact absurd hcourse hc
  refine ⟨hret.symm, hdsmem, ?_, ?_⟩
  · -- absence of deleted ids in the final store
    have hda := deleteAll_somes (ds ++ [some target]) db hall
    rw [hda] at heq1
    injection heq1 with _ hdb1
    have hso : InPlace soOnly db2 ((updateSortOrder target false) db2).2 :=
      updateSortOrder_inplace target false db2
    rw [heq3] at hso
    have hsubst : db' = db3 := hsnd.symm
    obtain ⟨db2', hep', hip⟩ := updateEnabledPlugins_run target._courseId false db1
    rw [hep'] at heq2
    injection heq2 with _ hdb2
    intro m hm
    rw [hsubst] at hm
    obtain ⟨m2, hm2, hmid2⟩ := InPlace_ids (fun a b hb => soOnly_id hb) hso m hm
    rw [← hdb2] at hm2
    obtain ⟨m1, hm1, hmid1⟩ := InPlace_ids (fun a b hb => epOnly_id hb) hip m2 hm2
    rw [← hdb1] at hm1
    have hfil := List.mem_filter.mp hm1
    have hnotin : m1._id ∉ delIds (ds ++ [some target]) := by
      intro hin
      have h6 := hfil.2
      have h7 : (delIds (ds ++ [some target])).contains m1._id = true :=
        List.elem_eq_true_of_mem hin
      rw [h7] at h6
      cases h6
    have hmid : m._id = m1._id := hmid2.trans hmid1
    constructor
    · intro he
      apply hnotin
      rw [← hmid, he]
      exact mem_delIds (List.mem_append_right _ (List.mem_singleton.mpr rfl))
    · intro n hn he
      apply hnotin
      rw [← hmid, he]
      exact mem_delIds (List.mem_append_left _ hn)
  · intro q0 db0 h0
    unfold deleteOp
    rw [h0]

/-- Claim C5's characterization at the concrete input: deleting article `4`
of `db0` returns `[article4, block5]`, and `block5` is listed exactly
because it is a parent-link descendant of the article. -/
theorem C5_witness :
    some block5 ∈ ([some block5] : List (Option Node))
      ↔ (Relation.TransGen (ParentStep (courseItemsOf db0 article4._courseId)) article4 block5
        ∨ (article4._type = CType.course
           ∧ (courseItemsOf db0 article4._courseId).find?
               (fun c => c._type == CType.config) = some block5)) :=
  (C5_delete_characterization (fun n => n._id == 4) db0
      { db0 with nodes := [course1, config2, page3] } article4 [some block5]
      [some article4, some block5] (by decide) (by decide) (by decide)).2.1 block5

end Content
